import Mathlib

/-!
# Keepalive state machine of `main.go` (ping / pong over a websocket)

The Go program starts two goroutines per connection, `reader` and `writer`,
which share one `*websocket.Conn`.  The embedding below keeps the program's
constants and the bodies of `reader` and `writer` (split at their blocking
points), and passes the connection, the logger and the ticker as explicit
state.  Time is a natural number of nanoseconds, as `time.Duration` is.

The websocket library is not part of the program: the few operations the
program calls on the connection are modelled from the specification's
contract for the transport.
-/

namespace PingPong

/-! ## Time and the program's constants (main.go, lines 21-25) -/

/-! Instants and spans of time are natural numbers of nanoseconds: an instant
counts from the moment the connection was accepted, a span is a
`time.Duration`. -/

/-- The constant `time.Millisecond`. -/
def Millisecond : Nat := 1000000

/-- The constant `time.Second`. -/
def Second : Nat := 1000000000

/-- The constant `pongWait = 5 * time.Second`. -/
def pongWait : Nat := 5 * Second

/-- The constant `writeWait = 10 * time.Second`. -/
def writeWait : Nat := 10 * Second

/-- The constant `pingPeriod = (pongWait * 9) / 10`, integer division. -/
def pingPeriod : Nat := (pongWait * 9) / 10

/-! ## The transport -/

/-- One byte of payload. -/
abbrev Byte := Fin 256

/-- The constant `websocket.PingMessage`. -/
def PingMessage : Nat := 9

/-- What the peer can put on the wire: the zero-payload reply to a ping, an
application message, or a close frame. -/
inductive Frame where
  | pong
  | message (p : List Byte)
  | close
deriving DecidableEq

/-- Payload length of a frame in bytes. -/
def Frame.size : Frame → Nat
  | .message p => p.length
  | .pong => 0
  | .close => 0

/-- Errors returned by the blocking operations of the connection. -/
inductive Err where
  | timeout
  | readLimit
  | closeFrame
  | closedConn
  | transport
deriving DecidableEq

/-- The lines the program prints with `log.Println`. -/
inductive LogLine where
  | startReader
  | pongReceived
  | readErr (e : Err)
  | payload (p : List Byte)
  | startWriter
  | writeErr (e : Err)
  | ping
deriving DecidableEq

/-- A frame the server put on the wire, with the write deadline that was in
force on the connection while it was being sent. -/
structure Sent where
  time : Nat
  msgType : Nat
  data : List Byte
  deadline : Option Nat
deriving DecidableEq

/-- Modelled from the spec: the connection handle of the websocket library
(the library is not in the program).  It holds the inbound size limit, the read
deadline, the write deadline (each absent until set) and, once closed, the
instant of the first close. -/
structure Conn where
  readLimit : Option Nat
  readDeadline : Option Nat
  writeDeadline : Option Nat
  closedAt : Option Nat
deriving DecidableEq

/-- Modelled from the spec: `ws.SetReadLimit(n)`. -/
def Conn.SetReadLimit (c : Conn) (n : Nat) : Conn :=
  { c with readLimit := some n }

/-- Modelled from the spec: `ws.SetReadDeadline(t)`, the arm operation of the
deadline clock. -/
def Conn.SetReadDeadline (c : Conn) (t : Nat) : Conn :=
  { c with readDeadline := some t }

/-- Modelled from the spec: `ws.SetWriteDeadline(t)`. -/
def Conn.SetWriteDeadline (c : Conn) (t : Nat) : Conn :=
  { c with writeDeadline := some t }

/-- Modelled from the spec: `ws.Close()` at instant `now`; closing a closed
connection changes nothing. -/
def Conn.Close (c : Conn) (now : Nat) : Conn :=
  match c.closedAt with
  | some _ => c
  | none => { c with closedAt := some now }

/-- A deadline has passed at instant `t`; an absent deadline never passes. -/
def expired (d : Option Nat) (t : Nat) : Bool :=
  match d with
  | some d => decide (d ≤ t)
  | none => false

/-- A payload of `n` bytes exceeds the limit; an absent limit admits all. -/
def overLimit (l : Option Nat) (n : Nat) : Bool :=
  match l with
  | some l => decide (l < n)
  | none => false

/-- What a blocked `ws.ReadMessage()` does with the next frame from the peer:
it fails, or hands a pong to the pong handler and keeps waiting, or returns
the payload of an application message. -/
inductive ReadResult where
  | error (e : Err)
  | control
  | data (p : List Byte)
deriving DecidableEq

/-- Modelled from the spec: `ws.ReadMessage()` blocked at instant `t` when
frame `f` arrives.  It fails on a closed connection, once the read deadline
has passed, on a frame above the size limit and on a close frame. -/
def Conn.ReadMessage (c : Conn) (t : Nat) (f : Frame) : ReadResult :=
  if c.closedAt.isSome then .error .closedConn
  else if expired c.readDeadline t then .error .timeout
  else if overLimit c.readLimit f.size then .error .readLimit
  else
    match f with
    | .pong => .control
    | .message p => .data p
    | .close => .error .closeFrame

/-- Modelled from the spec: `ws.WriteMessage(messageType, data)` at instant
`t`; `accepted` says whether the transport takes the frame.  It fails on a
closed connection and once the write deadline has passed.  The call is taken
to return at the instant it is made; `Conn.WriteMessageTaking` lets it take
time. -/
def Conn.WriteMessage (c : Conn) (t : Nat) (accepted : Bool) : Option Err :=
  if c.closedAt.isSome then some .closedConn
  else if expired c.writeDeadline t then some .timeout
  else if accepted then none
  else some .transport

/-! ## The two goroutines -/

/-- Where a goroutine stands: not yet scheduled, inside its loop, returned. -/
inductive Task where
  | notStarted
  | running
  | exited
deriving DecidableEq

/-- Everything the two goroutines of one connection can touch. -/
structure Sys where
  now : Nat
  conn : Conn
  readerTask : Task
  writerTask : Task
  ticker : Option Nat
  log : List LogLine
  wire : List Sent
deriving DecidableEq

/-- The call `log.Println(l)`. -/
def Sys.println (s : Sys) (l : LogLine) : Sys :=
  { s with log := s.log ++ [l] }

/-- State right after `upgrader.Upgrade` in `serveWs`: a fresh open
connection, no goroutine scheduled yet. -/
def init : Sys :=
  { now := 0
    conn := { readLimit := none, readDeadline := none, writeDeadline := none,
              closedAt := none }
    readerTask := .notStarted
    writerTask := .notStarted
    ticker := none
    log := []
    wire := [] }

/-- The pong handler installed by `reader` (main.go, lines 37-41): log, re-arm
the read deadline, return nil. -/
def reader.pongHandler (s : Sys) : Sys × Option Err :=
  let s := s.println .pongReceived
  ({ s with conn := s.conn.SetReadDeadline (s.now + pongWait) }, none)

/-- The return of `reader` after a failed receive (lines 46-49 and the
deferred `ws.Close()` of line 33); `t` is the instant the receive failed. -/
def reader.exit (s : Sys) (t : Nat) (e : Err) : Sys :=
  let s := s.println (.readErr e)
  { s with conn := s.conn.Close t, readerTask := .exited }

/-- The prologue of `reader` (lines 34-41), up to its first receive. -/
def reader.start (s : Sys) : Sys :=
  let s := s.println .startReader
  let s := { s with conn := s.conn.SetReadLimit 512 }
  let s := { s with conn := s.conn.SetReadDeadline (s.now + pongWait) }
  { s with readerTask := .running }

/-- One frame reaching the receive loop of `reader` (lines 44-52). -/
def reader.loop (s : Sys) (f : Frame) : Sys :=
  match s.conn.ReadMessage s.now f with
  | .control =>
    match reader.pongHandler s with
    | (s, none) => s
    | (s, some e) => reader.exit s s.now e
  | .data p => s.println (.payload p)
  | .error e => reader.exit s s.now e

/-- The prologue of `writer` (lines 60-65): `time.NewTicker(pingPeriod)` creates
the ticker, whose first tick is due one period later.  The field `ticker` holds
the instant of the next tick, absent when there is no running ticker. -/
def writer.start (s : Sys) : Sys :=
  let s := s.println .startWriter
  { s with ticker := some (s.now + pingPeriod), writerTask := .running }

/-- The deferred function of `writer` (lines 62-65). -/
def writer.exit (s : Sys) : Sys :=
  let s := { s with ticker := none }
  { s with conn := s.conn.Close s.now, writerTask := .exited }

/-- One tick reaching the loop of `writer` (lines 72-79), the next tick being due
one period later: the ping is written first (line 73), the write deadline is set
afterwards (line 78). -/
def writer.tick (s : Sys) (accepted : Bool) : Sys :=
  let s := { s with ticker := some (s.now + pingPeriod) }
  match s.conn.WriteMessage s.now accepted with
  | some e =>
    let s := s.println (.writeErr e)
    writer.exit s
  | none =>
    let sent : Sent := { time := s.now, msgType := PingMessage, data := [],
                         deadline := s.conn.writeDeadline }
    let s := { s with wire := s.wire ++ [sent] }
    let s := { s with conn := s.conn.SetWriteDeadline (s.now + writeWait) }
    s.println .ping

/-! ## Scheduling -/

/-- What can happen on a connection: `serveWs` schedules a goroutine, the peer
delivers a frame, the transport fails a receive, the ticker fires (with the
transport's verdict on the ping). -/
inductive Event where
  | readerStart
  | writerStart
  | recv (f : Frame)
  | recvErr
  | tick (accepted : Bool)
deriving DecidableEq

/-- The clock reaches `t`: a reader blocked in its receive returns with an
error if the connection has been closed or, at the read deadline, if the
deadline has passed. -/
def settle (s : Sys) (t : Nat) : Sys :=
  match s.readerTask with
  | .running =>
    match s.conn.closedAt with
    | some _ => reader.exit s s.now .closedConn
    | none =>
      match s.conn.readDeadline with
      | some d => if d ≤ t then reader.exit s d .timeout else s
      | none => s
  | _ => s

/-- The clock moves to `t`. -/
def advance (s : Sys) (t : Nat) : Sys :=
  let s := settle s t
  { s with now := t }

/-- A tick of the running ticker is due strictly before `t`. -/
def tickDue (s : Sys) (t : Nat) : Bool :=
  match s.ticker with
  | some n => decide (n < t)
  | none => false

/-- The effect of an event once the clock has been advanced to its instant. -/
def handle (s : Sys) (e : Event) : Option Sys :=
  match e with
  | .readerStart =>
    match s.readerTask with
    | .notStarted => some (reader.start s)
    | _ => none
  | .writerStart =>
    match s.writerTask with
    | .notStarted => some (writer.start s)
    | _ => none
  | .recv f =>
    match s.readerTask with
    | .notStarted => none
    | .running => some (reader.loop s f)
    | .exited => some s
  | .recvErr =>
    match s.readerTask with
    | .notStarted => none
    | .running => some (reader.exit s s.now .transport)
    | .exited => some s
  | .tick accepted =>
    if s.ticker = some s.now ∧ s.writerTask = .running then
      some (writer.tick s accepted)
    else none

/-- One event at instant `t`.  The clock never runs backward, a due tick is
never skipped, and a tick happens at the instant the ticker fires: with sends
that take no time the writer is always back at its `select` when a tick is due.
What the writer does when a send takes time is followed by `writer.pass`. -/
def step (s : Sys) (t : Nat) (e : Event) : Option Sys :=
  if t < s.now then none
  else if tickDue s t then none
  else handle (advance s t) e

/-- A run: timed events in order, from state `s`. -/
def run (s : Sys) : List (Nat × Event) → Option Sys
  | [] => some s
  | (t, e) :: rest =>
    match step s t e with
    | some s => run s rest
    | none => none

/-- An event that brings neither a frame nor a transport failure. -/
def Event.quiet : Event → Bool
  | .readerStart => true
  | .writerStart => true
  | .recv _ => false
  | .recvErr => false
  | .tick accepted => accepted

/-- An event that brings neither a pong nor a message; failures are allowed. -/
def Event.silent : Event → Bool
  | .recv .pong => false
  | .recv (.message _) => false
  | _ => true

/-- An event of the writer goroutine. -/
def Event.ofWriter : Event → Bool
  | .writerStart => true
  | .tick _ => true
  | _ => false

/-! ## The writer on its own timeline

The steps above take a send to return at the instant it is made.  How far apart
the pings are depends on how long a send takes, so the definitions of this
section follow the writer alone, with the time each send takes given. -/

/-- Modelled from the spec: a blocking `ws.WriteMessage(messageType, data)` entered
at instant `t` when the transport needs `took` nanoseconds to take the frame.
The result is the instant at which the call returns and its error.  It fails at
once on a closed connection or when the write deadline has already passed, it
fails at the write deadline when the deadline passes before the frame is taken,
and else it returns at `t + took`; with no write deadline set it waits as long
as the transport takes. -/
def Conn.WriteMessageTaking (c : Conn) (t took : Nat) : Nat × Option Err :=
  if c.closedAt.isSome then (t, some .closedConn)
  else
    match c.writeDeadline with
    | some d =>
      if d ≤ t then (t, some .timeout)
      else if t + took < d then (t + took, none)
      else (d, some .timeout)
    | none => (t + took, none)

/-- One pass of the loop of `writer` (lines 70-82) when a send takes `took`
nanoseconds.  The writer is back at its `select` at instant `s.now`; the field
`ticker` holds the instant `due` of the earliest tick it has not received.  It
receives that tick when it fires, or at once if it has fired already (the
ticker's channel keeps one tick and drops those that fire while one is waiting,
so the next tick is the first to fire after this one is received).  Then the
ping is written (line 73); on an error the writer returns through its deferred
function; else the write deadline is set from the instant the write returned
(line 78) and `PING` is logged. -/
def writer.pass (s : Sys) (took : Nat) : Sys :=
  match s.ticker with
  | none => s
  | some due =>
    let t := max s.now due
    let s := { s with now := t,
                      ticker := some (due + ((t - due) / pingPeriod + 1) * pingPeriod) }
    match s.conn.WriteMessageTaking t took with
    | (r, some e) =>
      let s := { s with now := r }
      let s := s.println (.writeErr e)
      writer.exit s
    | (r, none) =>
      let sent : Sent := { time := t, msgType := PingMessage, data := [],
                           deadline := s.conn.writeDeadline }
      let s := { s with now := r, wire := s.wire ++ [sent] }
      let s := { s with conn := s.conn.SetWriteDeadline (s.now + writeWait) }
      s.println .ping

/-- Successive passes of the loop of `writer`, one for each send, with the time
each send takes. -/
def writer.passes (s : Sys) : List Nat → Sys
  | [] => s
  | took :: rest => writer.passes (writer.pass s took) rest

/-- The instants of `k` successive firings of the ticker, the first at `n`. -/
def tickInstants (n : Nat) : Nat → List Nat
  | 0 => []
  | k + 1 => n :: tickInstants (n + pingPeriod) k

/-! ## A client that answers every ping -/

/-- Instant of the `n`-th arm of the read deadline when both goroutines are
scheduled at 0 and the client answers ping `k`, sent at `k * pingPeriod`, after a
latency of `δ k`: the start for `n = 0`, then the arrival of the `n`-th pong. -/
def armAt (δ : Nat → Nat) : Nat → Nat
  | 0 => 0
  | k + 1 => (k + 1) * pingPeriod + δ (k + 1)

/-- The run of such a connection up to the `n`-th pong: `serveWs` schedules the
writer, then the reader, and each round is a tick whose ping is accepted followed
by the client's pong. -/
def rounds (δ : Nat → Nat) : Nat → List (Nat × Event)
  | 0 => [(0, .writerStart), (0, .readerStart)]
  | n + 1 => rounds δ n ++
      [((n + 1) * pingPeriod, .tick true), (armAt δ (n + 1), .recv .pong)]

/-! ## Invariants of the reachable states -/

/-- What holds of the reader side in every reachable state. -/
structure ReaderInv (s : Sys) : Prop where
  armed_le : ∀ d, s.conn.readDeadline = some d → d ≤ s.now + pongWait
  live : s.readerTask = .running → s.conn.closedAt = none →
    ∃ d, s.conn.readDeadline = some d ∧ s.now < d
  exited_closed : s.readerTask = .exited → s.conn.closedAt ≠ none
  closed_le : ∀ c, s.conn.closedAt = some c → c ≤ s.now
  limit : s.readerTask ≠ .notStarted → s.conn.readLimit = some 512
  fresh : s.readerTask = .notStarted → s.conn.readDeadline = none

/-- What holds of the writer side in every reachable state. -/
structure WriterInv (s : Sys) : Prop where
  fresh : s.writerTask = .notStarted →
    s.ticker = none ∧ s.wire = [] ∧ s.conn.writeDeadline = none
  exited_closed : s.writerTask = .exited → s.conn.closedAt ≠ none ∧ s.ticker = none
  ticker_ge : ∀ n, s.ticker = some n → s.now ≤ n ∧ s.writerTask = .running
  deadline : ∀ n wd, s.ticker = some n → s.conn.writeDeadline = some wd →
    wd + pingPeriod = n + writeWait
  cadence : List.Chain' (fun a b : Sent => b.time = a.time + pingPeriod) s.wire
  last : ∀ n x, s.ticker = some n → s.wire.getLast? = some x → x.time + pingPeriod = n
  pings : ∀ x ∈ s.wire, x.msgType = PingMessage ∧ x.data = []

/-! ## Basic facts -/

theorem pongWait_val : pongWait = 5000000000 := by decide
theorem writeWait_val : writeWait = 10000000000 := by decide
theorem pingPeriod_val : pingPeriod = 4500000000 := by decide

@[simp] theorem Conn.Close_readDeadline (c : Conn) (t : Nat) :
    (c.Close t).readDeadline = c.readDeadline := by
  unfold Conn.Close; split <;> rfl

@[simp] theorem Conn.Close_writeDeadline (c : Conn) (t : Nat) :
    (c.Close t).writeDeadline = c.writeDeadline := by
  unfold Conn.Close; split <;> rfl

@[simp] theorem Conn.Close_readLimit (c : Conn) (t : Nat) :
    (c.Close t).readLimit = c.readLimit := by
  unfold Conn.Close; split <;> rfl

theorem Conn.Close_closedAt (c : Conn) (t : Nat) :
    (c.Close t).closedAt = some (c.closedAt.getD t) := by
  unfold Conn.Close; split <;> simp_all

theorem step_some {s s' : Sys} {t : Nat} {e : Event} (h : step s t e = some s') :
    s.now ≤ t ∧ tickDue s t = false ∧ handle (advance s t) e = some s' := by
  unfold step at h
  by_cases h1 : t < s.now
  · simp [h1] at h
  · by_cases h2 : tickDue s t = true
    · simp [h1, h2] at h
    · simp [h1, h2] at h
      exact ⟨by omega, by simpa using h2, h⟩

theorem init_readerInv : ReaderInv init := by
  constructor <;> simp [init]

theorem advance_readerInv {s : Sys} {t : Nat} (h : ReaderInv s) (ht : s.now ≤ t) :
    ReaderInv (advance s t) := by
  obtain ⟨h1, h2, h3, h4, h5, h6⟩ := h
  unfold advance settle
  split
  · split
    · refine ⟨?_, ?_, ?_, ?_, ?_, ?_⟩ <;> simp_all [reader.exit, Sys.println, Conn.Close_closedAt]
      · intro d hd; have := h1 d hd; omega
      · omega
    · split
      · split
        · refine ⟨?_, ?_, ?_, ?_, ?_, ?_⟩ <;> simp_all [reader.exit, Sys.println, Conn.Close_closedAt]
          all_goals omega
        · refine ⟨?_, ?_, ?_, ?_, ?_, ?_⟩ <;> simp_all
          all_goals omega
      · refine ⟨?_, ?_, ?_, ?_, ?_, ?_⟩ <;> simp_all
  · refine ⟨?_, ?_, ?_, ?_, ?_, ?_⟩ <;> simp_all
    · intro d hd; have := h1 d hd; omega
    · intro d hd; have := h4 d hd; omega

theorem handle_readerInv {s s' : Sys} {e : Event} (h : ReaderInv s)
    (hs : handle s e = some s') : ReaderInv s' := by
  obtain ⟨h1, h2, h3, h4, h5, h6⟩ := h
  have hp := pongWait_val
  cases e with
  | readerStart =>
    simp only [handle] at hs
    split at hs <;> simp at hs
    subst hs
    refine ⟨?_, ?_, ?_, ?_, ?_, ?_⟩ <;>
      simp_all [reader.start, Sys.println, Conn.SetReadLimit, Conn.SetReadDeadline]
  | writerStart =>
    simp only [handle] at hs
    split at hs <;> simp at hs
    subst hs
    refine ⟨?_, ?_, ?_, ?_, ?_, ?_⟩ <;> simp_all [writer.start, Sys.println]
  | recv f =>
    simp only [handle] at hs
    split at hs <;> simp at hs
    · subst hs
      unfold reader.loop
      split
      · refine ⟨?_, ?_, ?_, ?_, ?_, ?_⟩ <;>
          simp_all [reader.pongHandler, Sys.println, Conn.SetReadDeadline]
      · refine ⟨?_, ?_, ?_, ?_, ?_, ?_⟩ <;> simp_all [Sys.println]
      · refine ⟨?_, ?_, ?_, ?_, ?_, ?_⟩ <;>
          simp_all [reader.exit, Sys.println, Conn.Close_closedAt]
        cases hc : s.conn.closedAt <;> simp_all
    · subst hs; exact ⟨h1, h2, h3, h4, h5, h6⟩
  | recvErr =>
    simp only [handle] at hs
    split at hs <;> simp at hs
    · subst hs
      refine ⟨?_, ?_, ?_, ?_, ?_, ?_⟩ <;>
        simp_all [reader.exit, Sys.println, Conn.Close_closedAt]
      cases hc : s.conn.closedAt <;> simp_all
    · subst hs; exact ⟨h1, h2, h3, h4, h5, h6⟩
  | tick a =>
    simp only [handle] at hs
    split at hs <;> simp at hs
    subst hs
    unfold writer.tick
    simp only
    split
    · refine ⟨?_, ?_, ?_, ?_, ?_, ?_⟩ <;>
        simp_all [writer.exit, Sys.println, Conn.Close_closedAt]
      cases hc : s.conn.closedAt <;> simp_all
    · refine ⟨?_, ?_, ?_, ?_, ?_, ?_⟩ <;>
        simp_all [Sys.println, Conn.SetWriteDeadline]

@[simp] theorem advance_now (s : Sys) (t : Nat) : (advance s t).now = t := rfl

@[simp] theorem advance_ticker (s : Sys) (t : Nat) : (advance s t).ticker = s.ticker := by
  unfold advance settle reader.exit Sys.println
  repeat' split
  all_goals rfl

@[simp] theorem advance_writerTask (s : Sys) (t : Nat) :
    (advance s t).writerTask = s.writerTask := by
  unfold advance settle reader.exit Sys.println
  repeat' split
  all_goals rfl

@[simp] theorem advance_wire (s : Sys) (t : Nat) : (advance s t).wire = s.wire := by
  unfold advance settle reader.exit Sys.println
  repeat' split
  all_goals rfl

@[simp] theorem advance_readDeadline (s : Sys) (t : Nat) :
    (advance s t).conn.readDeadline = s.conn.readDeadline := by
  unfold advance settle reader.exit Sys.println
  repeat' split
  all_goals simp

@[simp] theorem advance_writeDeadline (s : Sys) (t : Nat) :
    (advance s t).conn.writeDeadline = s.conn.writeDeadline := by
  unfold advance settle reader.exit Sys.println
  repeat' split
  all_goals simp

@[simp] theorem advance_readLimit (s : Sys) (t : Nat) :
    (advance s t).conn.readLimit = s.conn.readLimit := by
  unfold advance settle reader.exit Sys.println
  repeat' split
  all_goals simp

theorem advance_closed {s : Sys} {t c : Nat} (h : s.conn.closedAt = some c) :
    (advance s t).conn.closedAt = some c := by
  unfold advance settle reader.exit Sys.println
  repeat' split
  all_goals simp_all [Conn.Close_closedAt]

theorem init_writerInv : WriterInv init := by
  constructor <;> simp [init]

theorem advance_writerInv {s : Sys} {t : Nat} (h : WriterInv s) (hd : tickDue s t = false) :
    WriterInv (advance s t) := by
  obtain ⟨h1, h2, h3, h4, h5, h6, h7⟩ := h
  refine ⟨?_, ?_, ?_, ?_, ?_, ?_, ?_⟩
  · simpa using h1
  · intro hx
    simp only [advance_writerTask] at hx
    obtain ⟨ha, hb⟩ := h2 hx
    cases hc : s.conn.closedAt with
    | none => exact absurd hc ha
    | some c => simp [advance_closed hc, hb]
  · intro n hn
    simp only [advance_ticker] at hn
    simp only [tickDue, hn, decide_eq_false_iff_not] at hd
    simp only [advance_now, advance_writerTask]
    exact ⟨by omega, (h3 n hn).2⟩
  · simpa using h4
  · simpa using h5
  · simpa using h6
  · simpa using h7

theorem handle_writerInv {s s' : Sys} {e : Event} (h : WriterInv s)
    (hs : handle s e = some s') : WriterInv s' := by
  obtain ⟨h1, h2, h3, h4, h5, h6, h7⟩ := h
  cases e with
  | readerStart =>
    simp only [handle] at hs
    split at hs <;> simp at hs
    subst hs
    refine ⟨?_, ?_, ?_, ?_, ?_, ?_, ?_⟩ <;>
      simp_all [reader.start, Sys.println, Conn.SetReadLimit, Conn.SetReadDeadline]
  | writerStart =>
    simp only [handle] at hs
    split at hs <;> simp at hs
    subst hs
    refine ⟨?_, ?_, ?_, ?_, ?_, ?_, ?_⟩ <;> simp_all [writer.start, Sys.println]
  | recv f =>
    simp only [handle] at hs
    split at hs <;> simp at hs
    · subst hs
      unfold reader.loop
      split
      · refine ⟨?_, ?_, ?_, ?_, ?_, ?_, ?_⟩ <;>
          simp_all [reader.pongHandler, Sys.println, Conn.SetReadDeadline]
      · refine ⟨?_, ?_, ?_, ?_, ?_, ?_, ?_⟩ <;> simp_all [Sys.println]
      · refine ⟨?_, ?_, ?_, ?_, ?_, ?_, ?_⟩ <;>
          simp_all [reader.exit, Sys.println, Conn.Close_closedAt]
    · subst hs; exact ⟨h1, h2, h3, h4, h5, h6, h7⟩
  | recvErr =>
    simp only [handle] at hs
    split at hs <;> simp at hs
    · subst hs
      refine ⟨?_, ?_, ?_, ?_, ?_, ?_, ?_⟩ <;>
        simp_all [reader.exit, Sys.println, Conn.Close_closedAt]
    · subst hs; exact ⟨h1, h2, h3, h4, h5, h6, h7⟩
  | tick a =>
    simp only [handle] at hs
    split at hs <;> simp at hs
    subst hs
    unfold writer.tick
    simp only
    split
    · refine ⟨?_, ?_, ?_, ?_, ?_, ?_, ?_⟩ <;>
        simp_all [writer.exit, Sys.println, Conn.Close_closedAt]
    · refine ⟨?_, ?_, ?_, ?_, ?_, ?_, ?_⟩ <;>
        simp_all [Sys.println, Conn.SetWriteDeadline]
      · omega
      · rw [List.chain'_append]
        refine ⟨h5, by simp, ?_⟩
        intro x hx y hy
        simp only [List.head?_cons, Option.mem_def, Option.some.injEq] at hx hy
        subst hy
        exact (h6 _ x rfl hx).symm
      · rintro x (hx | rfl)
        · exact h7 x hx
        · exact ⟨rfl, rfl⟩

theorem step_readerInv {s s' : Sys} {t : Nat} {e : Event} (h : ReaderInv s)
    (hs : step s t e = some s') : ReaderInv s' := by
  obtain ⟨ht, -, hh⟩ := step_some hs
  exact handle_readerInv (advance_readerInv h ht) hh

theorem step_writerInv {s s' : Sys} {t : Nat} {e : Event} (h : WriterInv s)
    (hs : step s t e = some s') : WriterInv s' := by
  obtain ⟨-, hd, hh⟩ := step_some hs
  exact handle_writerInv (advance_writerInv h hd) hh

theorem run_cons (s : Sys) (t : Nat) (e : Event) (rest : List (Nat × Event)) :
    run s ((t, e) :: rest) = (step s t e).bind (fun s1 => run s1 rest) := by
  simp only [run]
  cases step s t e <;> rfl

theorem run_append (s : Sys) (as bs : List (Nat × Event)) :
    run s (as ++ bs) = (run s as).bind (fun s1 => run s1 bs) := by
  induction as generalizing s with
  | nil => rfl
  | cons a as ih =>
    obtain ⟨t, e⟩ := a
    simp only [List.cons_append, run_cons]
    cases step s t e with
    | none => rfl
    | some s1 => simpa using ih s1

/-- An invariant kept by every step is kept by every run. -/
theorem run_induction {P : Sys → Prop}
    (hstep : ∀ s t e s', P s → step s t e = some s' → P s')
    {s s' : Sys} {evs : List (Nat × Event)} (h0 : P s) (h : run s evs = some s') : P s' := by
  induction evs generalizing s with
  | nil =>
    simp only [run, Option.some.injEq] at h
    exact h ▸ h0
  | cons a as ih =>
    obtain ⟨t, e⟩ := a
    rw [run_cons] at h
    cases hs : step s t e with
    | none => simp [hs] at h
    | some s1 =>
      rw [hs] at h
      exact ih (hstep s t e s1 h0 hs) h

theorem reachable_readerInv {evs : List (Nat × Event)} {s : Sys}
    (h : run init evs = some s) : ReaderInv s :=
  run_induction (P := ReaderInv) (fun _ _ _ _ hp hs => step_readerInv hp hs) init_readerInv h

theorem reachable_writerInv {evs : List (Nat × Event)} {s : Sys}
    (h : run init evs = some s) : WriterInv s :=
  run_induction (P := WriterInv) (fun _ _ _ _ hp hs => step_writerInv hp hs) init_writerInv h

/-! ## Arming the read deadline -/

/-- The read deadline after a step, event by event. -/
theorem step_readDeadline {s s' : Sys} {t : Nat} {e : Event} (hs : step s t e = some s') :
    s'.conn.readDeadline = s.conn.readDeadline ∨
    (s'.conn.readDeadline = some (t + pongWait) ∧ s'.readerTask = .running ∧
      (e = .readerStart ∨ e = .recv .pong)) := by
  obtain ⟨-, -, hh⟩ := step_some hs
  have hd := advance_readDeadline s t
  have hn := advance_now s t
  generalize advance s t = x at hh hd hn
  cases e with
  | readerStart =>
    simp only [handle] at hh
    split at hh <;> simp at hh
    subst hh
    right
    simp [reader.start, Sys.println, Conn.SetReadLimit, Conn.SetReadDeadline, hn]
  | writerStart =>
    simp only [handle] at hh
    split at hh <;> simp at hh
    subst hh
    left
    simp [writer.start, Sys.println, hd]
  | recv f =>
    simp only [handle] at hh
    split at hh <;> simp at hh
    · subst hh
      unfold reader.loop
      split
      · rename_i hrm
        right
        have hf : f = .pong := by
          unfold Conn.ReadMessage at hrm
          repeat' split at hrm
          all_goals simp_all
        simp_all [reader.pongHandler, Sys.println, Conn.SetReadDeadline]
      · left; simp [Sys.println, hd]
      · left; simp [reader.exit, Sys.println, hd]
    · subst hh; left; exact hd
  | recvErr =>
    simp only [handle] at hh
    split at hh <;> simp at hh
    · subst hh; left; simp [reader.exit, Sys.println, hd]
    · subst hh; left; exact hd
  | tick a =>
    simp only [handle] at hh
    split at hh <;> simp at hh
    subst hh
    left
    unfold writer.tick
    simp only
    split
    · simp [writer.exit, Sys.println, hd]
    · simp [Sys.println, Conn.SetWriteDeadline, hd]

/-- A pong after which the reader is still running has re-armed the deadline. -/
theorem step_pong_running {s s' : Sys} {t : Nat} (hs : step s t (.recv .pong) = some s')
    (hr : s'.readerTask = .running) : s'.conn.readDeadline = some (t + pongWait) := by
  obtain ⟨-, -, hh⟩ := step_some hs
  have hn := advance_now s t
  generalize advance s t = x at hh hn
  simp only [handle] at hh
  split at hh <;> simp at hh
  · subst hh
    unfold reader.loop at hr ⊢
    split at hr
    · simp [reader.pongHandler, Sys.println, Conn.SetReadDeadline, hn]
    · rename_i hrm
      unfold Conn.ReadMessage at hrm
      repeat' split at hrm
      all_goals simp_all
    · simp [reader.exit] at hr
  · subst hh; simp_all

theorem advance_readerTask (s : Sys) (t : Nat) :
    (advance s t).readerTask = s.readerTask ∨
    (s.readerTask = .running ∧ (advance s t).readerTask = .exited) := by
  unfold advance settle
  repeat' split
  all_goals simp_all [reader.exit]

/-- No frame reaches a reader that has not been scheduled. -/
theorem step_recv_notStarted {s : Sys} (h : s.readerTask = .notStarted) (u : Nat) (f : Frame) :
    step s u (.recv f) = none := by
  have hx : (advance s u).readerTask = .notStarted := by
    rcases advance_readerTask s u with h1 | ⟨h1, -⟩
    · rw [h1, h]
    · rw [h] at h1
      simp at h1
  unfold step
  split
  · rfl
  · split
    · rfl
    · simp [handle, hx]

theorem step_readerStart {s s' : Sys} {t : Nat} (hs : step s t .readerStart = some s') :
    s.readerTask = .notStarted ∧ s'.readerTask = .running ∧
    s'.conn.readDeadline = some (t + pongWait) ∧ s'.conn.readLimit = some 512 := by
  obtain ⟨-, -, hh⟩ := step_some hs
  have hn := advance_now s t
  have hx := advance_readerTask s t
  generalize advance s t = x at hh hn hx
  simp only [handle] at hh
  split at hh <;> simp at hh
  subst hh
  rename_i hns
  refine ⟨?_, ?_, ?_, ?_⟩
  · rcases hx with hx | hx
    · rw [← hx, hns]
    · rw [hns] at hx
      simp at hx
  all_goals simp [reader.start, Sys.println, Conn.SetReadLimit, Conn.SetReadDeadline, hn]

/-- C2: every arm performed by the reader sets the read deadline to the current instant
plus pongWait (5 s).  A step changes the read deadline only when the reader starts or
handles a pong, and then to exactly `t + pongWait`; the start arms it before any
receive is possible; the pong handler returns no error and touches only the log and
the read deadline, so it performs no receive. -/
theorem reader_arm_exact (s s' : Sys) (t : Nat) (e : Event) (hs : step s t e = some s') :
    pongWait = 5 * Second ∧
    (s'.conn.readDeadline ≠ s.conn.readDeadline →
      s'.conn.readDeadline = some (t + pongWait) ∧ (e = .readerStart ∨ e = .recv .pong)) ∧
    (e = .readerStart →
      s'.conn.readDeadline = some (t + pongWait) ∧ s'.readerTask = .running ∧
      ∀ u f, step s u (.recv f) = none) ∧
    (e = .recv .pong → s'.readerTask = .running →
      s'.conn.readDeadline = some (t + pongWait)) ∧
    (∀ x : Sys, (reader.pongHandler x).2 = none ∧
      (reader.pongHandler x).1 =
        { x with log := x.log ++ [.pongReceived],
                 conn := { x.conn with readDeadline := some (x.now + pongWait) } }) := by
  refine ⟨rfl, ?_, ?_, ?_, ?_⟩
  · intro hne
    rcases step_readDeadline hs with h | ⟨h1, -, h2⟩
    · exact absurd h hne
    · exact ⟨h1, h2⟩
  · intro he
    subst he
    obtain ⟨h1, h2, h3, -⟩ := step_readerStart hs
    exact ⟨h3, h2, fun u f => step_recv_notStarted h1 u f⟩
  · intro he hr
    subst he
    exact step_pong_running hs hr
  · intro x
    exact ⟨rfl, rfl⟩

/-! ## Monotone deadline, exits and close -/

/-- What a step can do to the writer side, event by event: only a tick touches the wire. -/
theorem step_wire {s s' : Sys} {t : Nat} {e : Event} (hs : step s t e = some s') :
    s'.wire = s.wire ∨
    (∃ a, e = .tick a ∧ s.ticker = some t ∧ s'.writerTask = .running ∧
      s'.ticker = some (t + pingPeriod) ∧
      s'.wire = s.wire ++ [⟨t, PingMessage, [], s.conn.writeDeadline⟩] ∧
      s'.conn.writeDeadline = some (t + writeWait)) := by
  obtain ⟨-, -, hh⟩ := step_some hs
  have hw := advance_wire s t
  have hn := advance_now s t
  have hk := advance_ticker s t
  have hd := advance_writeDeadline s t
  generalize advance s t = x at hh hw hn hk hd
  cases e with
  | readerStart =>
    simp only [handle] at hh
    split at hh <;> simp at hh
    subst hh
    left
    simp [reader.start, Sys.println, hw]
  | writerStart =>
    simp only [handle] at hh
    split at hh <;> simp at hh
    subst hh
    left
    simp [writer.start, Sys.println, hw]
  | recv f =>
    simp only [handle] at hh
    split at hh <;> simp at hh
    · subst hh
      left
      unfold reader.loop
      split
      · simp [reader.pongHandler, Sys.println, hw]
      · simp [Sys.println, hw]
      · simp [reader.exit, Sys.println, hw]
    · subst hh; left; exact hw
  | recvErr =>
    simp only [handle] at hh
    split at hh <;> simp at hh
    · subst hh; left; simp [reader.exit, Sys.println, hw]
    · subst hh; left; exact hw
  | tick a =>
    simp only [handle] at hh
    split at hh <;> simp at hh
    subst hh
    rename_i hen
    unfold writer.tick
    simp only
    split
    · left; simp [writer.exit, Sys.println, hw]
    · right
      refine ⟨a, rfl, ?_⟩
      simp_all [Sys.println, Conn.SetWriteDeadline]

theorem handle_final {x s' : Sys} {e : Event} (hh : handle x e = some s') :
    (x.readerTask = .exited → s'.readerTask = .exited) ∧
    (x.writerTask = .exited → s'.writerTask = .exited) ∧
    (∀ c, x.conn.closedAt = some c → s'.conn.closedAt = some c) := by
  cases e with
  | readerStart =>
    simp only [handle] at hh
    split at hh <;> simp at hh
    subst hh
    refine ⟨?_, ?_, ?_⟩ <;>
      simp_all [reader.start, Sys.println, Conn.SetReadLimit, Conn.SetReadDeadline]
  | writerStart =>
    simp only [handle] at hh
    split at hh <;> simp at hh
    subst hh
    refine ⟨?_, ?_, ?_⟩ <;> simp_all [writer.start, Sys.println]
  | recv f =>
    simp only [handle] at hh
    split at hh <;> simp at hh
    · subst hh
      unfold reader.loop
      split
      · refine ⟨?_, ?_, ?_⟩ <;>
          simp_all [reader.pongHandler, Sys.println, Conn.SetReadDeadline]
      · refine ⟨?_, ?_, ?_⟩ <;> simp_all [Sys.println]
      · refine ⟨?_, ?_, ?_⟩ <;> simp_all [reader.exit, Sys.println, Conn.Close_closedAt]
    · subst hh
      refine ⟨?_, ?_, ?_⟩ <;> simp_all
  | recvErr =>
    simp only [handle] at hh
    split at hh <;> simp at hh
    · subst hh
      refine ⟨?_, ?_, ?_⟩ <;> simp_all [reader.exit, Sys.println, Conn.Close_closedAt]
    · subst hh
      refine ⟨?_, ?_, ?_⟩ <;> simp_all
  | tick a =>
    simp only [handle] at hh
    split at hh <;> simp at hh
    subst hh
    unfold writer.tick
    simp only
    split
    · refine ⟨?_, ?_, ?_⟩ <;> simp_all [writer.exit, Sys.println, Conn.Close_closedAt]
    · refine ⟨?_, ?_, ?_⟩ <;> simp_all [Sys.println, Conn.SetWriteDeadline]

/-- A step never lets an exited task run again, and never reopens the connection. -/
theorem step_final {s s' : Sys} {t : Nat} {e : Event} (hs : step s t e = some s') :
    (s.readerTask = .exited → s'.readerTask = .exited) ∧
    (s.writerTask = .exited → s'.writerTask = .exited) ∧
    (∀ c, s.conn.closedAt = some c → s'.conn.closedAt = some c) := by
  obtain ⟨-, -, hh⟩ := step_some hs
  obtain ⟨h1, h2, h3⟩ := handle_final hh
  refine ⟨fun h => h1 ?_, fun h => h2 (by simpa using h), fun c h => h3 c (advance_closed h)⟩
  rcases advance_readerTask s t with h1 | ⟨h1, -⟩
  · rw [h1, h]
  · rw [h] at h1; simp at h1

/-- Once the reader has exited, the clock alone moves when time passes. -/
theorem advance_exited {s : Sys} (h : s.readerTask = .exited) (t : Nat) :
    advance s t = { s with now := t } := by
  unfold advance settle
  simp [h]

/-- C7: deadline monotonicity.  In every run from the initial state (the clock never
runs backward) a step by the writer leaves the read deadline as it is, and a read
deadline that has been armed never moves backward and moves only when the reader
handles a pong, an inbound frame; no operation of the writer touches it. -/
theorem deadline_monotone (evs : List (Nat × Event)) (s s' : Sys) (t : Nat) (e : Event)
    (hr : run init evs = some s) (hs : step s t e = some s') :
    s.now ≤ t ∧
    (e.ofWriter = true → s'.conn.readDeadline = s.conn.readDeadline) ∧
    (∀ d, s.conn.readDeadline = some d →
      ∃ d', s'.conn.readDeadline = some d' ∧ d ≤ d' ∧ (d' ≠ d → e = .recv .pong)) ∧
    (∀ (x : Sys) (a : Bool),
      (writer.start x).conn.readDeadline = x.conn.readDeadline ∧
      (writer.tick x a).conn.readDeadline = x.conn.readDeadline ∧
      (writer.exit x).conn.readDeadline = x.conn.readDeadline) := by
  have hinv := reachable_readerInv hr
  refine ⟨(step_some hs).1, ?_, ?_, ?_⟩
  · intro hw
    rcases step_readDeadline hs with h | ⟨-, -, h | h⟩
    · exact h
    · subst h; simp [Event.ofWriter] at hw
    · subst h; simp [Event.ofWriter] at hw
  · intro d hd
    rcases step_readDeadline hs with h | ⟨h1, -, h | h⟩
    · exact ⟨d, by rw [h, hd], le_refl d, fun hne => absurd rfl hne⟩
    · subst h
      have := hinv.fresh (step_readerStart hs).1
      rw [hd] at this
      simp at this
    · refine ⟨t + pongWait, h1, ?_, fun _ => h⟩
      have h2 := hinv.armed_le d hd
      have h3 := (step_some hs).1
      omega
  · intro x a
    refine ⟨rfl, ?_, ?_⟩
    · unfold writer.tick
      simp only
      split
      · simp [writer.exit, Sys.println]
      · simp [Sys.println, Conn.SetWriteDeadline]
    · simp [writer.exit]

theorem Conn.Close_closed {c : Conn} (h : c.closedAt ≠ none) (u : Nat) : c.Close u = c := by
  unfold Conn.Close
  split
  · rfl
  · rename_i hn; exact absurd hn h

theorem Conn.Close_ne_none (c : Conn) (u : Nat) : (c.Close u).closedAt ≠ none := by
  simp [Conn.Close_closedAt]

/-- C8: each task closes the connection on every exit path and stops at its first
failure.  In every reachable state an exited task has closed the connection (and the
writer has stopped its ticker); a failed receive makes the reader log, close and
exit, after which frames change nothing; a failed ping send makes the writer stop
the ticker, close and exit with nothing written, after which no tick is taken and
the wire stays as it is; a closed connection stays closed with its first closing
instant, and closing it again changes nothing. -/
theorem close_on_exit (evs : List (Nat × Event)) (s s' : Sys) (t : Nat) (e : Event)
    (hr : run init evs = some s) (hs : step s t e = some s') :
    (s'.readerTask = .exited → s'.conn.closedAt ≠ none) ∧
    (s'.writerTask = .exited → s'.conn.closedAt ≠ none ∧ s'.ticker = none) ∧
    (∀ (x : Sys) (f : Frame) (err : Err), x.conn.ReadMessage x.now f = .error err →
      reader.loop x f = reader.exit x x.now err ∧
      (reader.loop x f).readerTask = .exited ∧
      (reader.loop x f).conn.closedAt ≠ none ∧
      (reader.loop x f).log = x.log ++ [.readErr err]) ∧
    (s.readerTask = .exited → s'.readerTask = .exited ∧
      ((e = .recvErr ∨ ∃ f, e = .recv f) → s' = { s with now := t })) ∧
    (∀ (x : Sys) (a : Bool) (err : Err), x.conn.WriteMessage x.now a = some err →
      (writer.tick x a).writerTask = .exited ∧ (writer.tick x a).ticker = none ∧
      (writer.tick x a).wire = x.wire ∧ (writer.tick x a).conn.closedAt ≠ none) ∧
    (s.writerTask = .exited → s'.writerTask = .exited ∧ s'.wire = s.wire ∧
      ∀ a, e ≠ .tick a) ∧
    (∀ c, s.conn.closedAt = some c → s'.conn.closedAt = some c) ∧
    (∀ (c : Conn) (u v : Nat), (c.Close u).Close v = c.Close u) := by
  have hR := step_readerInv (reachable_readerInv hr) hs
  have hW := step_writerInv (reachable_writerInv hr) hs
  have hW0 := reachable_writerInv hr
  obtain ⟨hf1, hf2, hf3⟩ := step_final hs
  refine ⟨hR.exited_closed, hW.exited_closed, ?_, ?_, ?_, ?_, hf3, ?_⟩
  · intro x f err h
    have h1 : reader.loop x f = reader.exit x x.now err := by
      unfold reader.loop
      rw [h]
    rw [h1]
    exact ⟨rfl, rfl, Conn.Close_ne_none _ _, rfl⟩
  · intro h
    refine ⟨hf1 h, ?_⟩
    intro he
    obtain ⟨-, -, hh⟩ := step_some hs
    rw [advance_exited h] at hh
    rcases he with he | ⟨f, he⟩
    · subst he
      simpa [handle, h] using hh.symm
    · subst he
      simpa [handle, h] using hh.symm
  · intro x a err h
    unfold writer.tick
    simp only
    rw [h]
    exact ⟨rfl, rfl, rfl, Conn.Close_ne_none _ _⟩
  · intro h
    have hk := (hW0.exited_closed h).2
    refine ⟨hf2 h, ?_, ?_⟩
    · rcases step_wire hs with hw | ⟨a, -, hk2, -⟩
      · exact hw
      · rw [hk] at hk2; simp at hk2
    · intro a he
      subst he
      obtain ⟨-, -, hh⟩ := step_some hs
      simp [handle, hk] at hh
  · intro c u v
    exact Conn.Close_closed (Conn.Close_ne_none c u) v

/-! ## Ticks in the step model -/

/-- Time passing leaves a state alone or makes a running reader exit. -/
theorem advance_cases (s : Sys) (t : Nat) :
    advance s t = { s with now := t } ∨
    (s.readerTask = .running ∧
      ∃ u err, advance s t = { reader.exit s u err with now := t }) := by
  unfold advance settle
  split
  · split
    · right; exact ⟨by assumption, _, _, rfl⟩
    · split
      · split
        · right; exact ⟨by assumption, _, _, rfl⟩
        · left; rfl
      · left; rfl
  · left; rfl

/-- Time passing before the deadline leaves a running reader on an open connection
blocked in its receive. -/
theorem advance_live {s : Sys} {t : Nat} (h2 : s.conn.closedAt = none)
    (h3 : ∀ d, s.conn.readDeadline = some d → t < d) : advance s t = { s with now := t } := by
  unfold advance settle
  split
  · split
    · simp_all
    · split
      · rename_i d hd
        have := h3 d hd
        split
        · omega
        · rfl
      · rfl
  · rfl

/-- The ticker fires: the writer writes one ping, or fails and exits. -/
theorem step_tick {s s' : Sys} {t : Nat} {a : Bool} (hs : step s t (.tick a) = some s') :
    s.ticker = some t ∧ s.writerTask = .running ∧
    ((s'.writerTask = .running ∧ s'.ticker = some (t + pingPeriod) ∧
        s'.wire = s.wire ++ [⟨t, PingMessage, [], s.conn.writeDeadline⟩]) ∨
      (s'.writerTask = .exited ∧ s'.ticker = none ∧ s'.wire = s.wire ∧
        s'.conn.closedAt ≠ none)) := by
  obtain ⟨-, -, hh⟩ := step_some hs
  have hw := advance_wire s t
  have hn := advance_now s t
  have hk := advance_ticker s t
  have hd := advance_writeDeadline s t
  have ht := advance_writerTask s t
  generalize advance s t = x at hh hw hn hk hd ht
  simp only [handle] at hh
  split at hh <;> simp at hh
  subst hh
  rename_i hen
  refine ⟨by rw [← hk, hen.1, hn], by rw [← ht, hen.2], ?_⟩
  unfold writer.tick
  simp only
  split
  · right
    simp [writer.exit, Sys.println, hw, Conn.Close_closedAt]
  · left
    simp_all [Sys.println, Conn.SetWriteDeadline]

/-! ## Size limit -/

/-- A frame reaching a reader: dropped if the reader has exited, else handed to the loop. -/
theorem step_recv {s s' : Sys} {t : Nat} {f : Frame} (hs : step s t (.recv f) = some s') :
    ((advance s t).readerTask = .exited ∧ s' = advance s t) ∨
    ((advance s t).readerTask = .running ∧ advance s t = { s with now := t } ∧
      s.readerTask = .running ∧ s' = reader.loop { s with now := t } f) := by
  obtain ⟨-, -, hh⟩ := step_some hs
  simp only [handle] at hh
  split at hh <;> simp at hh
  · rename_i hrun
    right
    rcases advance_cases s t with h | ⟨h1, u, err, h⟩
    · rw [h] at hrun hh
      exact ⟨by rw [h]; exact hrun, h, hrun, hh.symm⟩
    · rw [h] at hrun
      simp [reader.exit] at hrun
  · rename_i hex
    left
    exact ⟨hex, hh.symm⟩

/-- The log after time has passed: unchanged, or one read error longer. -/
theorem advance_log (s : Sys) (t : Nat) :
    ∃ l, (advance s t).log = s.log ++ l ∧ ∀ x ∈ l, ∃ err, x = LogLine.readErr err := by
  rcases advance_cases s t with h | ⟨-, u, err, h⟩
  · exact ⟨[], by rw [h]; simp, by simp⟩
  · exact ⟨[.readErr err], by rw [h]; simp [reader.exit, Sys.println], by simp⟩

/-- With the limit at 512 an oversized message always fails the receive. -/
theorem ReadMessage_oversize {c : Conn} (hl : c.readLimit = some 512) (u : Nat)
    {p : List Byte} (hp : 512 < p.length) :
    ∃ err, c.ReadMessage u (.message p) = .error err := by
  unfold Conn.ReadMessage
  split
  · exact ⟨_, rfl⟩
  · split
    · exact ⟨_, rfl⟩
    · simp [hl, overLimit, Frame.size, hp]

/-- On an open connection whose deadline has not passed the receive is decided by the
size of the message alone. -/
theorem ReadMessage_live {c : Conn} (hl : c.readLimit = some 512) (hc : c.closedAt = none)
    {u : Nat} (hd : ∀ d, c.readDeadline = some d → u < d) (p : List Byte) :
    c.ReadMessage u (.message p) =
      if 512 < p.length then .error .readLimit else .data p := by
  have he : expired c.readDeadline u = false := by
    unfold expired
    split
    · rename_i d h
      have := hd d h
      simp
      omega
    · rfl
  unfold Conn.ReadMessage
  simp [hc, he, hl, overLimit, Frame.size]

theorem run_exited {s s' : Sys} {evs : List (Nat × Event)} (h0 : s.readerTask = .exited)
    (h : run s evs = some s') : s'.readerTask = .exited :=
  run_induction (P := fun x => x.readerTask = .exited)
    (fun _ _ _ _ hp hs => (step_final hs).1 hp) h0 h

theorem step_recv_exited {s s' : Sys} {t : Nat} {f : Frame} (h : s.readerTask = .exited)
    (hs : step s t (.recv f) = some s') : s' = { s with now := t } := by
  obtain ⟨-, -, hh⟩ := step_some hs
  rw [advance_exited h] at hh
  simpa [handle, h] using hh.symm

/-- C9: size enforcement.  Whenever a message can reach the reader the inbound limit
is already 512 bytes.  A message longer than 512 bytes (513 bytes, 600 bytes) makes
the reader exit with the connection closed, logs nothing but read errors (its
payload never reaches the log), and no later frame changes anything; on a live
connection the error is the size error and the close is immediate.  A message of
at most 512 bytes is never failed for its size, and on a live connection it is
logged and the reader goes on. -/
theorem size_enforcement (evs : List (Nat × Event)) (s s' : Sys) (t : Nat) (p : List Byte)
    (hr : run init evs = some s) (hs : step s t (.recv (.message p)) = some s') :
    s.conn.readLimit = some 512 ∧
    (512 < p.length →
      s'.readerTask = .exited ∧ s'.conn.closedAt ≠ none ∧
      (∃ l, s'.log = s.log ++ l ∧ ∀ x ∈ l, ∃ err, x = LogLine.readErr err) ∧
      (∀ evs2 s2 u f s3, run s' evs2 = some s2 → step s2 u (.recv f) = some s3 →
        s3 = { s2 with now := u })) ∧
    (512 < p.length → s.readerTask = .running → s.conn.closedAt = none →
      (∀ d, s.conn.readDeadline = some d → t < d) →
      s'.log = s.log ++ [.readErr .readLimit] ∧ s'.conn.closedAt = some t) ∧
    (p.length ≤ 512 → ∀ (c : Conn) (u : Nat), c.readLimit = some 512 →
      c.ReadMessage u (.message p) ≠ .error .readLimit) ∧
    (p.length ≤ 512 → s.readerTask = .running → s.conn.closedAt = none →
      (∀ d, s.conn.readDeadline = some d → t < d) →
      s'.readerTask = .running ∧ s'.conn.closedAt = none ∧
      s'.log = s.log ++ [.payload p]) := by
  have hI := reachable_readerInv hr
  have hI' := step_readerInv hI hs
  have hlim : s.conn.readLimit = some 512 := by
    apply hI.limit
    intro hns
    rw [step_recv_notStarted hns] at hs
    simp at hs
  have hmain : 512 < p.length → s'.readerTask = .exited ∧
      ∃ l, s'.log = s.log ++ l ∧ ∀ x ∈ l, ∃ err, x = LogLine.readErr err := by
    intro hp
    rcases step_recv hs with ⟨h1, h2⟩ | ⟨-, -, -, h2⟩
    · rw [h2]
      exact ⟨h1, advance_log s t⟩
    · obtain ⟨err, herr⟩ := ReadMessage_oversize hlim t hp
      have : s' = reader.exit { s with now := t } t err := by
        rw [h2]
        unfold reader.loop
        simp only
        rw [herr]
      rw [this]
      exact ⟨rfl, [.readErr err], rfl, by simp⟩
  refine ⟨hlim, ?_, ?_, ?_, ?_⟩
  · intro hp
    obtain ⟨h1, h2⟩ := hmain hp
    refine ⟨h1, hI'.exited_closed h1, h2, ?_⟩
    intro evs2 s2 u f s3 hrun hstep
    exact step_recv_exited (run_exited h1 hrun) hstep
  · intro hp h1 h2 h3
    rcases step_recv hs with ⟨hx, -⟩ | ⟨-, -, -, hx⟩
    · rw [advance_live h2 h3] at hx
      rw [h1] at hx
      simp at hx
    · have hm := ReadMessage_live hlim h2 h3 p
      rw [hx]
      unfold reader.loop
      simp only
      rw [hm]
      simp [hp, reader.exit, Sys.println, Conn.Close_closedAt, h2]
  · intro hp c u hl
    unfold Conn.ReadMessage
    repeat' split
    all_goals simp_all [overLimit, Frame.size]
    all_goals omega
  · intro hp h1 h2 h3
    rcases step_recv hs with ⟨hx, -⟩ | ⟨-, -, -, hx⟩
    · rw [advance_live h2 h3] at hx
      rw [h1] at hx
      simp at hx
    · have hm := ReadMessage_live hlim h2 h3 p
      have : ¬ 512 < p.length := by omega
      rw [hx]
      unfold reader.loop
      simp only
      rw [hm]
      simp [this, Sys.println, h1, h2]

/-! ## A client that has gone silent -/

/-- A running ticker always finds the write deadline, if any, still ahead. -/
theorem WriteMessage_tick {x : Sys} (hW : WriterInv x) (hk : x.ticker = some x.now)
    (hc : x.conn.closedAt = none) : x.conn.WriteMessage x.now true = none := by
  have he : expired x.conn.writeDeadline x.now = false := by
    unfold expired
    split
    · rename_i wd hwd
      have h := hW.deadline _ wd hk hwd
      have h1 := pingPeriod_val
      have h2 := writeWait_val
      simp
      omega
    · rfl
  unfold Conn.WriteMessage
  simp [hc, he]

/-- While nothing arrives, the reader stays blocked until its deadline `d` and is
timed out at `d`: one step. -/
theorem quiet_step {s s' : Sys} {t d : Nat} {e : Event} (hW : WriterInv s)
    (hd : s.conn.readDeadline = some d)
    (hph : (s.readerTask = .running ∧ s.conn.closedAt = none ∧ s.now < d) ∨
      (s.readerTask = .exited ∧ s.conn.closedAt = some d ∧ d ≤ s.now ∧
        LogLine.readErr .timeout ∈ s.log))
    (hq : e.quiet = true) (hs : step s t e = some s') :
    s'.conn.readDeadline = some d ∧
    ((s'.readerTask = .running ∧ s'.conn.closedAt = none ∧ s'.now < d) ∨
      (s'.readerTask = .exited ∧ s'.conn.closedAt = some d ∧ d ≤ s'.now ∧
        LogLine.readErr .timeout ∈ s'.log)) := by
  obtain ⟨hle, hdue, hh⟩ := step_some hs
  have hWx := advance_writerInv hW hdue
  have hdx : (advance s t).conn.readDeadline = some d := by simpa using hd
  have hnx := advance_now s t
  have hphx : ((advance s t).readerTask = .running ∧ (advance s t).conn.closedAt = none ∧
        t < d) ∨
      ((advance s t).readerTask = .exited ∧ (advance s t).conn.closedAt = some d ∧ d ≤ t ∧
        LogLine.readErr .timeout ∈ (advance s t).log) := by
    rcases hph with ⟨h1, h2, h3⟩ | ⟨h1, h2, h3, h4⟩
    · by_cases htd : t < d
      · left
        rw [advance_live h2 (fun d' hd' => by rw [hd] at hd'; cases hd'; exact htd)]
        exact ⟨h1, h2, htd⟩
      · right
        have : advance s t = { reader.exit s d .timeout with now := t } := by
          unfold advance settle
          simp [h1, h2, hd, Nat.le_of_not_lt htd]
        rw [this]
        simp [reader.exit, Sys.println, Conn.Close_closedAt, h2]
        omega
    · right
      rw [advance_exited h1]
      exact ⟨h1, h2, by omega, h4⟩
  clear hs hph hd hW hdue
  generalize advance s t = x at hh hWx hdx hnx hphx
  cases e with
  | readerStart =>
    simp only [handle] at hh
    split at hh <;> simp at hh
    rename_i hns
    rcases hphx with ⟨h1, -⟩ | ⟨h1, -⟩ <;> rw [hns] at h1 <;> simp at h1
  | writerStart =>
    simp only [handle] at hh
    split at hh <;> simp at hh
    subst hh
    simp only [writer.start, Sys.println]
    refine ⟨hdx, ?_⟩
    rcases hphx with ⟨h1, h2, h3⟩ | ⟨h1, h2, h3, h4⟩
    · left; exact ⟨h1, h2, by omega⟩
    · right; exact ⟨h1, h2, by omega, by simp [h4]⟩
  | recv f => simp [Event.quiet] at hq
  | recvErr => simp [Event.quiet] at hq
  | tick a =>
    simp only [Event.quiet] at hq
    subst hq
    simp only [handle] at hh
    split at hh <;> simp at hh
    subst hh
    rename_i hen
    rcases hphx with ⟨h1, h2, h3⟩ | ⟨h1, h2, h3, h4⟩
    · have hwm := WriteMessage_tick hWx hen.1 h2
      unfold writer.tick
      simp only
      rw [hwm]
      simp only [Sys.println, Conn.SetWriteDeadline]
      exact ⟨hdx, Or.inl ⟨h1, h2, by omega⟩⟩
    · have hwm : x.conn.WriteMessage x.now true = some .closedConn := by
        unfold Conn.WriteMessage
        simp [h2]
      unfold writer.tick
      simp only
      rw [hwm]
      simp only [writer.exit, Sys.println]
      refine ⟨by simpa using hdx, Or.inr ⟨h1, ?_, by omega, by simp [h4]⟩⟩
      rw [Conn.Close_closed (by simp [h2])]
      exact h2

/-- While nothing arrives, the reader stays blocked until its deadline `d` and is
timed out at `d`: a whole run. -/
theorem quiet_run {post : List (Nat × Event)} {s s' : Sys} {d : Nat} (hW : WriterInv s)
    (hd : s.conn.readDeadline = some d)
    (hph : (s.readerTask = .running ∧ s.conn.closedAt = none ∧ s.now < d) ∨
      (s.readerTask = .exited ∧ s.conn.closedAt = some d ∧ d ≤ s.now ∧
        LogLine.readErr .timeout ∈ s.log))
    (hq : ∀ x ∈ post, x.2.quiet = true) (hs : run s post = some s') :
    s'.conn.readDeadline = some d ∧
    ((s'.readerTask = .running ∧ s'.conn.closedAt = none ∧ s'.now < d) ∨
      (s'.readerTask = .exited ∧ s'.conn.closedAt = some d ∧ d ≤ s'.now ∧
        LogLine.readErr .timeout ∈ s'.log)) := by
  induction post generalizing s with
  | nil =>
    simp only [run, Option.some.injEq] at hs
    subst hs
    exact ⟨hd, hph⟩
  | cons a rest ih =>
    obtain ⟨t, e⟩ := a
    rw [run_cons] at hs
    cases h1 : step s t e with
    | none => simp [h1] at hs
    | some s1 =>
      rw [h1] at hs
      obtain ⟨hd1, hph1⟩ := quiet_step hW hd hph (hq (t, e) (by simp)) h1
      exact ih (step_writerInv hW h1) hd1 hph1
        (fun x hx => hq x (List.mem_cons_of_mem _ hx)) hs

/-! ## A client that answers every ping: proofs -/

/-- A tick on a live connection: the ping goes out and the writer goes on. -/
theorem step_tick_live {s : Sys} {t d : Nat} (hW : WriterInv s) (hk : s.ticker = some t)
    (hw : s.writerTask = .running) (hc : s.conn.closedAt = none)
    (hd : s.conn.readDeadline = some d) (htd : t < d) (hn : s.now ≤ t) :
    ∃ s', step s t (.tick true) = some s' ∧ s'.now = t ∧ s'.readerTask = s.readerTask ∧
      s'.writerTask = .running ∧ s'.conn.closedAt = none ∧
      s'.conn.readDeadline = some d ∧ s'.ticker = some (t + pingPeriod) ∧
      s'.wire.length = s.wire.length + 1 := by
  have hdue : tickDue s t = false := by simp [tickDue, hk]
  have hx : advance s t = { s with now := t } :=
    advance_live hc (fun d' hd' => by rw [hd] at hd'; cases hd'; exact htd)
  have hWx := advance_writerInv hW hdue
  rw [hx] at hWx
  have hwm := WriteMessage_tick (x := { s with now := t }) hWx hk hc
  have hs : step s t (.tick true) = some (writer.tick { s with now := t } true) := by
    unfold step
    simp [Nat.not_lt.mpr hn, hdue, hx, handle, hk, hw]
  refine ⟨_, hs, ?_⟩
  unfold writer.tick
  simp only
  simp only at hwm
  rw [hwm]
  simp [Sys.println, Conn.SetWriteDeadline, hc, hd, hw]

/-- A pong on a live connection re-arms the deadline. -/
theorem step_pong_live {s : Sys} {t d : Nat} (hr : s.readerTask = .running)
    (hc : s.conn.closedAt = none) (hd : s.conn.readDeadline = some d) (htd : t < d)
    (hn : s.now ≤ t) (hdue : tickDue s t = false) :
    ∃ s', step s t (.recv .pong) = some s' ∧ s'.now = t ∧ s'.readerTask = .running ∧
      s'.writerTask = s.writerTask ∧ s'.conn.closedAt = none ∧
      s'.conn.readDeadline = some (t + pongWait) ∧ s'.ticker = s.ticker ∧
      s'.wire = s.wire := by
  have hx : advance s t = { s with now := t } :=
    advance_live hc (fun d' hd' => by rw [hd] at hd'; cases hd'; exact htd)
  have hrm : s.conn.ReadMessage t .pong = .control := by
    unfold Conn.ReadMessage
    have : ¬ d ≤ t := by omega
    cases hl : s.conn.readLimit <;> simp [hc, hd, expired, overLimit, Frame.size, this, hl]
  have hs : step s t (.recv .pong) = some (reader.loop { s with now := t } .pong) := by
    unfold step
    simp [Nat.not_lt.mpr hn, hdue, hx, handle, hr]
  refine ⟨_, hs, ?_⟩
  unfold reader.loop
  simp only
  rw [hrm]
  simp [reader.pongHandler, Sys.println, Conn.SetReadDeadline, hr, hc]

theorem armAt_succ_lt {δ : Nat → Nat} (hδ : ∀ k, δ k < pongWait - pingPeriod) (n : Nat) :
    (n + 1) * pingPeriod < armAt δ n + pongWait ∧
    armAt δ n ≤ (n + 1) * pingPeriod ∧
    armAt δ (n + 1) < armAt δ n + pongWait ∧
    (n + 1) * pingPeriod ≤ armAt δ (n + 1) ∧
    armAt δ (n + 1) < (n + 1) * pingPeriod + pingPeriod := by
  have h1 := pongWait_val
  have h2 := pingPeriod_val
  have h3 := hδ n
  have h4 := hδ (n + 1)
  cases n with
  | zero => simp only [armAt]; omega
  | succ m => simp only [armAt]; rw [h1, h2] at *; omega

/-- The state after `n` rounds of prompt pongs. -/
theorem rounds_state (δ : Nat → Nat) (hδ : ∀ k, δ k < pongWait - pingPeriod) (n : Nat) :
    ∃ s, run init (rounds δ n) = some s ∧ s.now = armAt δ n ∧ s.readerTask = .running ∧
      s.writerTask = .running ∧ s.conn.closedAt = none ∧
      s.conn.readDeadline = some (armAt δ n + pongWait) ∧
      s.ticker = some ((n + 1) * pingPeriod) ∧ s.wire.length = n := by
  induction n with
  | zero =>
    exact ⟨_, rfl, rfl, rfl, rfl, rfl, rfl, rfl, rfl⟩
  | succ n ih =>
    obtain ⟨s, hrun, hnow, hr, hw, hc, hd, hk, hlen⟩ := ih
    obtain ⟨a1, a2, a3, a4, a5⟩ := armAt_succ_lt hδ n
    obtain ⟨s1, hs1, hn1, hr1, hw1, hc1, hd1, hk1, hl1⟩ :=
      step_tick_live (reachable_writerInv hrun) hk hw hc hd a1 (by omega)
    have hdue : tickDue s1 (armAt δ (n + 1)) = false := by
      simp [tickDue, hk1]
      omega
    obtain ⟨s2, hs2, hn2, hr2, hw2, hc2, hd2, hk2, hl2⟩ :=
      step_pong_live (by rw [hr1, hr]) hc1 hd1 a3 (by omega) hdue
    refine ⟨s2, ?_, hn2, hr2, by rw [hw2, hw1], hc2, hd2, ?_, ?_⟩
    · simp only [rounds]
      rw [run_append, hrun, Option.some_bind, run_cons, hs1, Option.some_bind, run_cons, hs2,
        Option.some_bind]
      rfl
    · rw [hk2, hk1, Nat.succ_mul (n + 1) pingPeriod]
    · rw [hl2, hl1, hlen]

/-- C6, as amended: with pongWait = 5 s and pingPeriod = 4.5 s, a client whose pong
arrives less than pongWait - pingPeriod = 0.5 s after each ping keeps the
connection open for ever.  After any number `n` of rounds both goroutines run, the
connection is open, `n` pings are on the wire, the deadline is the last arm plus
pongWait, the next pong arrives before that deadline, consecutive arms are less
than pingPeriod plus 0.5 s apart, and the connection is open at every instant
before the deadline. -/
theorem prompt_pongs_keep_alive (δ : Nat → Nat) (hδ : ∀ k, δ k < pongWait - pingPeriod)
    (n : Nat) :
    pongWait - pingPeriod = 500 * Millisecond ∧
    ∃ s, run init (rounds δ n) = some s ∧ s.now = armAt δ n ∧
      s.readerTask = .running ∧ s.writerTask = .running ∧ s.conn.closedAt = none ∧
      s.wire.length = n ∧
      s.conn.readDeadline = some (armAt δ n + pongWait) ∧
      armAt δ (n + 1) < armAt δ n + pongWait ∧
      armAt δ (n + 1) - armAt δ n < pingPeriod + (pongWait - pingPeriod) ∧
      (∀ T, T < armAt δ n + pongWait →
        (settle s T).conn.closedAt = none ∧ (settle s T).readerTask = .running) := by
  obtain ⟨s, hrun, hnow, hr, hw, hc, hd, -, hlen⟩ := rounds_state δ hδ n
  obtain ⟨-, a2, a3, -, a5⟩ := armAt_succ_lt hδ n
  refine ⟨by decide, s, hrun, hnow, hr, hw, hc, hlen, hd, a3, ?_, ?_⟩
  · have h1 := pongWait_val
    have h2 := pingPeriod_val
    have h3 := hδ (n + 1)
    have h4 : armAt δ (n + 1) = (n + 1) * pingPeriod + δ (n + 1) := rfl
    cases n with
    | zero => simp only [armAt] at *; omega
    | succ m =>
      have h5 : armAt δ (m + 1) = (m + 1) * pingPeriod + δ (m + 1) := rfl
      rw [h1, h2] at *
      omega
  · intro T hT
    have : settle s T = s := by
      unfold settle
      simp [hr, hc, hd]
      omega
    rw [this]
    exact ⟨hc, hr⟩

/-- C6 read at the letter fails: a client that answers the first ping after exactly 1 s
(within the 1 s of the claim) has its pong arrive at 5.5 s, past the read deadline of
5 s armed at the start; the reader has timed out at 5 s, the connection is closed and
the pong is never handled. -/
theorem pong_after_one_second_is_late :
    (∀ k : Nat, (fun _ : Nat => 1 * Second) k ≤ 1 * Second) ∧
    armAt (fun _ => 1 * Second) 1 = 5500 * Millisecond ∧
    ∃ s, run init (rounds (fun _ => 1 * Second) 1) = some s ∧
      s.conn.readDeadline = some (5 * Second) ∧
      s.readerTask = .exited ∧ s.conn.closedAt = some (5 * Second) ∧
      LogLine.readErr .timeout ∈ s.log ∧ LogLine.pongReceived ∉ s.log := by
  refine ⟨fun _ => le_refl _, by decide, _, rfl, ?_⟩
  decide

/-- C6, witness: a client answering every ping after 400 ms, two rounds. -/
theorem prompt_pongs_keep_alive_witness :
    (∀ k : Nat, (fun _ : Nat => 400 * Millisecond) k < pongWait - pingPeriod) ∧
    ∃ s, run init (rounds (fun _ => 400 * Millisecond) 2) = some s ∧
      s.conn.closedAt = none ∧
      s.conn.readDeadline = some (armAt (fun _ => 400 * Millisecond) 2 + pongWait) :=
  ⟨fun _ => (by decide : 400 * Millisecond < pongWait - pingPeriod),
    match (prompt_pongs_keep_alive (fun _ => 400 * Millisecond)
      (fun _ => (by decide : 400 * Millisecond < pongWait - pingPeriod)) 2).2 with
    | ⟨s, h1, _, _, _, h2, _, h3, _⟩ => ⟨s, h1, h2, h3⟩⟩

/-! ## Messages, write deadlines and the constants -/

/-- C3: the code does not do what the claim says.  A message the reader receives
leaves the read deadline where it was: the loop of `reader` never re-arms.  A client
that sends a message every second from 1 s on, and never a pong, has every message
logged, the deadline still at 5 s, and is timed out at 5 s; the same client sending
pongs instead has the deadline moved to 9 s. -/
theorem message_does_not_rearm :
    (∀ (x : Sys) (p : List Byte),
      (reader.loop x (.message p)).conn.readDeadline = x.conn.readDeadline) ∧
    (∃ s, run init [(0, .writerStart), (0, .readerStart),
        (1 * Second, .recv (.message [104, 105])), (2 * Second, .recv (.message [104, 105])),
        (3 * Second, .recv (.message [104, 105])), (4 * Second, .recv (.message [104, 105]))]
        = some s ∧
      s.log = [.startWriter, .startReader, .payload [104, 105], .payload [104, 105],
        .payload [104, 105], .payload [104, 105]] ∧
      s.conn.readDeadline = some (5 * Second) ∧
      (settle s (5 * Second)).readerTask = .exited ∧
      (settle s (5 * Second)).conn.closedAt = some (5 * Second) ∧
      LogLine.readErr .timeout ∈ (settle s (5 * Second)).log) ∧
    (∃ s, run init [(0, .writerStart), (0, .readerStart),
        (1 * Second, .recv .pong), (2 * Second, .recv .pong),
        (3 * Second, .recv .pong), (4 * Second, .recv .pong)] = some s ∧
      s.conn.readDeadline = some (9 * Second) ∧
      (settle s (5 * Second)).conn.closedAt = none) := by
  refine ⟨?_, ⟨_, rfl, ?_⟩, ⟨_, rfl, ?_⟩⟩
  · intro x p
    unfold reader.loop
    split
    · rename_i hrm
      unfold Conn.ReadMessage at hrm
      repeat' split at hrm
      all_goals simp_all
    · rfl
    · simp [reader.exit, Sys.println]
  · decide
  · decide

/-- C5: the code does not do what the claim says.  `writer` writes the ping first and
sets the write deadline afterwards, so the first ping goes out with no write
deadline in force; every later ping goes out under the deadline left by the tick
before it. -/
theorem first_ping_has_no_write_deadline :
    (∃ s, run init [(0, .writerStart)] = some s ∧ s.conn.writeDeadline = none ∧
      s.ticker = some pingPeriod) ∧
    (∃ s, run init [(0, .writerStart), (0, .readerStart), (pingPeriod, .tick true),
        (pingPeriod, .recv .pong), (2 * pingPeriod, .tick true)] = some s ∧
      s.wire = [⟨pingPeriod, PingMessage, [], none⟩,
        ⟨2 * pingPeriod, PingMessage, [], some (pingPeriod + writeWait)⟩]) ∧
    (∀ (x : Sys), x.conn.closedAt = none → x.conn.writeDeadline = none →
      (writer.tick x true).wire = x.wire ++ [⟨x.now, PingMessage, [], none⟩] ∧
      (writer.tick x true).conn.writeDeadline = some (x.now + writeWait)) := by
  refine ⟨⟨_, rfl, by decide⟩, ⟨_, rfl, by decide⟩, ?_⟩
  intro x hc hw
  have hwm : x.conn.WriteMessage x.now true = none := by
    unfold Conn.WriteMessage
    simp [hc, hw, expired]
  unfold writer.tick
  simp only
  rw [hwm]
  simp [Sys.println, Conn.SetWriteDeadline, hw]

/-- C10 read at the letter fails: writeWait is not shorter than pingPeriod. -/
theorem writeWait_not_below_pingPeriod : ¬ (writeWait < pingPeriod) := by
  decide

/-- C10, as amended: the per-send write timeout is longer than the heartbeat period,
pingPeriod = 4.5 s < pongWait = 5 s < writeWait = 10 s.  After a ping written at
instant `t` the write deadline is `t + writeWait` and the next tick is due at
`t + pingPeriod`, which comes first: a send still pending need not have timed out
when the next tick fires. -/
theorem writeWait_exceeds_pingPeriod (x : Sys) (a : Bool)
    (h : x.conn.WriteMessage x.now a = none) :
    pingPeriod < writeWait ∧ pongWait < writeWait ∧
    pingPeriod = 4500 * Millisecond ∧ writeWait = 10 * Second ∧
    (writer.tick x a).conn.writeDeadline = some (x.now + writeWait) ∧
    (writer.tick x a).ticker = some (x.now + pingPeriod) ∧
    x.now + pingPeriod < x.now + writeWait := by
  have h1 := pingPeriod_val
  have h2 := writeWait_val
  refine ⟨by decide, by decide, by decide, by decide, ?_, ?_, by omega⟩
  · unfold writer.tick
    simp only
    rw [h]
    simp [Sys.println, Conn.SetWriteDeadline]
  · unfold writer.tick
    simp only
    rw [h]
    simp [Sys.println]

/-- C10, witness: the first tick of a writer started at 0 on a fresh connection. -/
theorem writeWait_exceeds_pingPeriod_witness :
    (advance (writer.start init) pingPeriod).conn.WriteMessage
      (advance (writer.start init) pingPeriod).now true = none ∧
    (writer.tick (advance (writer.start init) pingPeriod) true).conn.writeDeadline =
      some (pingPeriod + writeWait) ∧
    (writer.tick (advance (writer.start init) pingPeriod) true).ticker =
      some (pingPeriod + pingPeriod) :=
  ⟨rfl,
    (writeWait_exceeds_pingPeriod (advance (writer.start init) pingPeriod) true rfl).2.2.2.2.1,
    (writeWait_exceeds_pingPeriod (advance (writer.start init) pingPeriod) true rfl).2.2.2.2.2.1⟩

/-! ## Concrete runs -/

/-- C2, witness: the reader starts at 0 on the fresh connection. -/
theorem reader_arm_exact_witness :
    ∃ s, step init 0 .readerStart = some s ∧ s.conn.readDeadline = some (0 + pongWait) ∧
      s.readerTask = .running :=
  ⟨_, rfl, ((reader_arm_exact init _ 0 .readerStart rfl).2.2.1 rfl).1,
    ((reader_arm_exact init _ 0 .readerStart rfl).2.2.1 rfl).2.1⟩

/-- C7, witness: a pong at 4.6 s after the first ping moves the deadline from 5 s to
9.6 s; the tick before it left the deadline alone. -/
theorem deadline_monotone_witness :
    ∃ s s', run init [(0, .writerStart), (0, .readerStart), (pingPeriod, .tick true)] = some s ∧
      step s (4600 * Millisecond) (.recv .pong) = some s' ∧
      s.conn.readDeadline = some (5 * Second) ∧
      ∃ d', s'.conn.readDeadline = some d' ∧ 5 * Second ≤ d' ∧
        (d' ≠ 5 * Second → Event.recv .pong = .recv .pong) :=
  ⟨_, _, rfl, rfl, rfl,
    (deadline_monotone [(0, .writerStart), (0, .readerStart), (pingPeriod, .tick true)] _ _
      (4600 * Millisecond) (.recv .pong) rfl rfl).2.2.1 (5 * Second) rfl⟩

/-- C8, witness: a transport failure at 1 s makes the reader close and exit. -/
theorem close_on_exit_witness :
    ∃ s s', run init [(0, .writerStart), (0, .readerStart)] = some s ∧
      step s (1 * Second) .recvErr = some s' ∧
      (s'.readerTask = .exited → s'.conn.closedAt ≠ none) ∧ s'.readerTask = .exited :=
  ⟨_, _, rfl, rfl,
    (close_on_exit [(0, .writerStart), (0, .readerStart)] _ _ (1 * Second) .recvErr rfl rfl).1,
    rfl⟩

/-- C9, witness: a message of 600 bytes at 1 s. -/
theorem size_enforcement_witness :
    ∃ s s', run init [(0, .writerStart), (0, .readerStart)] = some s ∧
      step s (1 * Second) (.recv (.message (List.replicate 600 0))) = some s' ∧
      s.conn.readLimit = some 512 ∧ s'.readerTask = .exited ∧ s'.conn.closedAt ≠ none ∧
      s'.log = s.log ++ [.readErr .readLimit] :=
  ⟨_, _, rfl, rfl,
    (size_enforcement [(0, .writerStart), (0, .readerStart)] _ _ (1 * Second)
      (List.replicate 600 0) rfl rfl).1,
    ((size_enforcement [(0, .writerStart), (0, .readerStart)] _ _ (1 * Second)
      (List.replicate 600 0) rfl rfl).2.1 (by rw [List.length_replicate]; decide)).1,
    ((size_enforcement [(0, .writerStart), (0, .readerStart)] _ _ (1 * Second)
      (List.replicate 600 0) rfl rfl).2.1 (by rw [List.length_replicate]; decide)).2.1,
    ((size_enforcement [(0, .writerStart), (0, .readerStart)] _ _ (1 * Second)
      (List.replicate 600 0) rfl rfl).2.2.1 (by rw [List.length_replicate]; decide) rfl rfl (by decide)).1⟩

/-! ## Liveness -/

/-- Handling an event keeps the clock, keeps a started reader started, and closes the
connection, if at all, at the current instant. -/
theorem handle_closedAt {x s' : Sys} {e : Event} (hh : handle x e = some s') :
    s'.now = x.now ∧ (x.readerTask ≠ .notStarted → s'.readerTask ≠ .notStarted) ∧
    (s'.conn.closedAt = x.conn.closedAt ∨
      (x.conn.closedAt = none ∧ s'.conn.closedAt = some x.now)) := by
  have hcl : ∀ (c : Conn) (u : Nat), (c.Close u).closedAt = c.closedAt ∨
      (c.closedAt = none ∧ (c.Close u).closedAt = some u) := by
    intro c u
    unfold Conn.Close
    split
    · left; rfl
    · right; exact ⟨by assumption, rfl⟩
  cases e with
  | readerStart =>
    simp only [handle] at hh
    split at hh <;> simp at hh
    subst hh
    simp [reader.start, Sys.println, Conn.SetReadLimit, Conn.SetReadDeadline]
  | writerStart =>
    simp only [handle] at hh
    split at hh <;> simp at hh
    subst hh
    simp [writer.start, Sys.println]
  | recv f =>
    simp only [handle] at hh
    split at hh <;> simp at hh
    · subst hh
      unfold reader.loop
      split
      · simp [reader.pongHandler, Sys.println, Conn.SetReadDeadline]
      · simp_all [Sys.println]
      · simp only [reader.exit, Sys.println]
        refine ⟨?_, ?_, hcl _ _⟩ <;> simp
    · subst hh; simp
  | recvErr =>
    simp only [handle] at hh
    split at hh <;> simp at hh
    · subst hh
      simp only [reader.exit, Sys.println]
      refine ⟨?_, ?_, hcl _ _⟩ <;> simp
    · subst hh; simp
  | tick a =>
    simp only [handle] at hh
    split at hh <;> simp at hh
    subst hh
    unfold writer.tick
    simp only
    split
    · simp only [writer.exit, Sys.println]
      refine ⟨?_, ?_, hcl _ _⟩ <;> simp
    · simp [Sys.println, Conn.SetWriteDeadline]

/-- While neither a pong nor a message arrives, the connection is open only before the
deadline `d`, and once closed it was closed no later than `d`: one step. -/
theorem silent_step {s s' : Sys} {t d : Nat} {e : Event} (hR : ReaderInv s)
    (hd : s.conn.readDeadline = some d) (hns : s.readerTask ≠ .notStarted)
    (hph : (s.conn.closedAt = none ∧ s.now < d) ∨ ∃ c, s.conn.closedAt = some c ∧ c ≤ d)
    (hq : e.silent = true) (hs : step s t e = some s') :
    s'.conn.readDeadline = some d ∧ s'.readerTask ≠ .notStarted ∧
    ((s'.conn.closedAt = none ∧ s'.now < d) ∨ ∃ c, s'.conn.closedAt = some c ∧ c ≤ d) := by
  have hd' : s'.conn.readDeadline = some d := by
    rcases step_readDeadline hs with h | ⟨-, -, h | h⟩
    · rw [h, hd]
    · subst h
      exact absurd (step_readerStart hs).1 hns
    · subst h
      simp [Event.silent] at hq
  obtain ⟨hle, -, hh⟩ := step_some hs
  obtain ⟨h1, h2, h3⟩ := handle_closedAt hh
  have hnsx : (advance s t).readerTask ≠ .notStarted := by
    rcases advance_readerTask s t with h | ⟨-, h⟩
    · rw [h]; exact hns
    · rw [h]; simp
  refine ⟨hd', h2 hnsx, ?_⟩
  have hphx : ((advance s t).conn.closedAt = none ∧ t < d) ∨
      ∃ c, (advance s t).conn.closedAt = some c ∧ c ≤ d := by
    rcases hph with ⟨ha, hb⟩ | ⟨c, ha, hb⟩
    · have hrun : s.readerTask = .running := by
        cases hr : s.readerTask with
        | notStarted => exact absurd hr hns
        | running => rfl
        | exited => exact absurd ha (hR.exited_closed hr)
      by_cases htd : t < d
      · left
        rw [advance_live ha (fun d' hd' => by rw [hd] at hd'; cases hd'; exact htd)]
        exact ⟨ha, htd⟩
      · right
        have : advance s t = { reader.exit s d .timeout with now := t } := by
          unfold advance settle
          simp [hrun, ha, hd, Nat.le_of_not_lt htd]
        rw [this]
        exact ⟨d, by simp [reader.exit, Sys.println, Conn.Close_closedAt, ha], le_refl d⟩
    · right
      exact ⟨c, advance_closed ha, hb⟩
  rw [advance_now] at h1
  rcases hphx with ⟨ha, hb⟩ | ⟨c, ha, hb⟩
  · rcases h3 with h3 | ⟨-, h3⟩
    · left
      exact ⟨by rw [h3, ha], by omega⟩
    · right
      rw [advance_now] at h3
      exact ⟨t, h3, by omega⟩
  · right
    exact ⟨c, (handle_final hh).2.2 c ha, hb⟩

/-- While neither a pong nor a message arrives, the connection is open only before the
deadline `d`, and once closed it was closed no later than `d`: a whole run. -/
theorem silent_run {post : List (Nat × Event)} {s s' : Sys} {d : Nat} (hR : ReaderInv s)
    (hd : s.conn.readDeadline = some d) (hns : s.readerTask ≠ .notStarted)
    (hph : (s.conn.closedAt = none ∧ s.now < d) ∨ ∃ c, s.conn.closedAt = some c ∧ c ≤ d)
    (hq : ∀ x ∈ post, x.2.silent = true) (hs : run s post = some s') :
    ReaderInv s' ∧ s'.conn.readDeadline = some d ∧ s'.readerTask ≠ .notStarted ∧
    ((s'.conn.closedAt = none ∧ s'.now < d) ∨ ∃ c, s'.conn.closedAt = some c ∧ c ≤ d) := by
  induction post generalizing s with
  | nil =>
    simp only [run, Option.some.injEq] at hs
    subst hs
    exact ⟨hR, hd, hns, hph⟩
  | cons a rest ih =>
    obtain ⟨t, e⟩ := a
    rw [run_cons] at hs
    cases h1 : step s t e with
    | none => simp [h1] at hs
    | some s1 =>
      rw [h1] at hs
      obtain ⟨hd1, hns1, hph1⟩ := silent_step hR hd hns hph (hq (t, e) (by simp)) h1
      exact ih (step_readerInv hR h1) hd1 hns1 hph1
        (fun x hx => hq x (List.mem_cons_of_mem _ hx)) hs

theorem Event.silent_of_quiet {e : Event} (h : e.quiet = true) : e.silent = true := by
  cases e with
  | recv f => simp [Event.quiet] at h
  | _ => rfl

/-- A step leaves the clock at the instant of its event. -/
theorem step_now {s s' : Sys} {t : Nat} {e : Event} (hs : step s t e = some s') :
    s'.now = t := by
  obtain ⟨-, -, hh⟩ := step_some hs
  rw [(handle_closedAt hh).1, advance_now]

/-- C1: liveness.  The reader arms or re-arms the read deadline at `t0` on an open
connection (it starts, or handles a pong, at `t0`), and from then on neither a pong
nor a message arrives.  Then from `t0 + pongWait` on the reader has exited and the
connection is closed, no later than `t0 + pongWait`.  If moreover no transport
failure occurs, the reader is still blocked and the connection open at every
instant before `t0 + pongWait`, and the receive fails with a timeout at
`t0 + pongWait`, which is the closing instant.  With both goroutines scheduled at 0
and a silent client: the first ping goes out at 4.5 s on an open connection, the
connection is still open just before 5 s, closed at 5 s, hence closed at 5.5 s. -/
theorem reader_liveness (pre post : List (Nat × Event)) (s0 s1 s2 : Sys) (t0 : Nat)
    (e : Event) (h0 : run init pre = some s0)
    (harm : e = .readerStart ∨ e = .recv .pong) (h1 : step s0 t0 e = some s1)
    (hrun : s1.readerTask = .running) (hopen : s1.conn.closedAt = none)
    (hsil : ∀ x ∈ post, x.2.silent = true) (h2 : run s1 post = some s2) :
    s1.conn.readDeadline = some (t0 + pongWait) ∧
    (∀ T, t0 + pongWait ≤ T →
      (settle s2 T).readerTask = .exited ∧
      ∃ c, (settle s2 T).conn.closedAt = some c ∧ c ≤ t0 + pongWait) ∧
    ((∀ x ∈ post, x.2.quiet = true) →
      (∀ T, s2.now ≤ T → T < t0 + pongWait →
        (settle s2 T).readerTask = .running ∧ (settle s2 T).conn.closedAt = none) ∧
      (∀ T, t0 + pongWait ≤ T →
        (settle s2 T).readerTask = .exited ∧
        (settle s2 T).conn.closedAt = some (t0 + pongWait) ∧
        LogLine.readErr .timeout ∈ (settle s2 T).log)) ∧
    (∃ s, run init [(0, .writerStart), (0, .readerStart), (pingPeriod, .tick true)] = some s ∧
      s.now = 4500 * Millisecond ∧
      s.wire = [⟨4500 * Millisecond, PingMessage, [], none⟩] ∧
      s.conn.closedAt = none ∧
      (settle s (5 * Second - 1)).conn.closedAt = none ∧
      (settle s (5 * Second)).conn.closedAt = some (5 * Second) ∧
      (settle s (5500 * Millisecond)).conn.closedAt = some (5 * Second)) := by
  have harmed : s1.conn.readDeadline = some (t0 + pongWait) := by
    rcases harm with he | he
    · subst he; exact (step_readerStart h1).2.2.1
    · subst he; exact step_pong_running h1 hrun
  have hW1 := step_writerInv (reachable_writerInv h0) h1
  have hR1 := step_readerInv (reachable_readerInv h0) h1
  have hnow : s1.now = t0 := step_now h1
  have hp := pongWait_val
  refine ⟨harmed, ?_, ?_, ?_⟩
  · intro T hT
    obtain ⟨hR2, hd2, hns2, hph2⟩ := silent_run hR1 harmed (by rw [hrun]; simp)
      (Or.inl ⟨hopen, by omega⟩) hsil h2
    rcases hph2 with ⟨h3, h4⟩ | ⟨c, h3, h4⟩
    · have h5 : s2.readerTask = .running := by
        cases hr : s2.readerTask with
        | notStarted => exact absurd hr hns2
        | running => rfl
        | exited => exact absurd h3 (hR2.exited_closed hr)
      have : settle s2 T = reader.exit s2 (t0 + pongWait) .timeout := by
        unfold settle
        simp [h5, h3, hd2, hT]
      rw [this]
      exact ⟨rfl, t0 + pongWait, by simp [reader.exit, Sys.println, Conn.Close_closedAt, h3],
        le_refl _⟩
    · cases hr : s2.readerTask with
      | notStarted => exact absurd hr hns2
      | running =>
        have : settle s2 T = reader.exit s2 s2.now .closedConn := by
          unfold settle
          simp [hr, h3]
        rw [this]
        exact ⟨rfl, c, by simp [reader.exit, Sys.println, Conn.Close_closedAt, h3], h4⟩
      | exited =>
        have : settle s2 T = s2 := by
          unfold settle
          simp [hr]
        rw [this]
        exact ⟨hr, c, h3, h4⟩
  · intro hq
    obtain ⟨hd2, hph2⟩ := quiet_run hW1 harmed (Or.inl ⟨hrun, hopen, by omega⟩) hq h2
    refine ⟨?_, ?_⟩
    · intro T hT1 hT2
      rcases hph2 with ⟨h3, h4, h5⟩ | ⟨-, -, h5, -⟩
      · have : settle s2 T = s2 := by
          unfold settle
          simp [h3, h4, hd2]
          omega
        rw [this]
        exact ⟨h3, h4⟩
      · omega
    · intro T hT
      rcases hph2 with ⟨h3, h4, h5⟩ | ⟨h3, h4, h5, h6⟩
      · have : settle s2 T = reader.exit s2 (t0 + pongWait) .timeout := by
          unfold settle
          simp [h3, h4, hd2, hT]
        rw [this]
        simp [reader.exit, Sys.println, Conn.Close_closedAt, h4]
      · have : settle s2 T = s2 := by
          unfold settle
          simp [h3]
        rw [this]
        exact ⟨h3, h4, h6⟩
  · refine ⟨_, rfl, ?_⟩
    decide

/-- C1, witness: writer and reader scheduled at 0, one accepted ping at 4.5 s, a silent
client; observed at 6 s. -/
theorem reader_liveness_witness :
    ∃ s0 s1 s2, run init [(0, .writerStart)] = some s0 ∧
      step s0 0 .readerStart = some s1 ∧ s1.readerTask = .running ∧
      s1.conn.closedAt = none ∧ run s1 [(pingPeriod, .tick true)] = some s2 ∧
      (settle s2 (6 * Second)).readerTask = .exited ∧
      (settle s2 (6 * Second)).conn.closedAt = some (0 + pongWait) :=
  ⟨_, _, _, rfl, rfl, rfl, rfl, rfl,
    (((reader_liveness [(0, .writerStart)] [(pingPeriod, .tick true)] _ _ _ 0 .readerStart
      rfl (Or.inl rfl) rfl rfl rfl (by decide) rfl).2.2.1 (by decide)).2
        (6 * Second) (by decide)).1,
    (((reader_liveness [(0, .writerStart)] [(pingPeriod, .tick true)] _ _ _ 0 .readerStart
      rfl (Or.inl rfl) rfl rfl rfl (by decide) rfl).2.2.1 (by decide)).2
        (6 * Second) (by decide)).2.1⟩

/-! ## The writer on its own timeline: proofs -/

/-- A send taking no time is the send of the step model when the frame is accepted. -/
theorem WriteMessageTaking_zero (c : Conn) (t : Nat) :
    c.WriteMessageTaking t 0 = (t, c.WriteMessage t true) := by
  unfold Conn.WriteMessageTaking Conn.WriteMessage expired
  cases hc : c.closedAt with
  | some x => simp
  | none =>
    cases hd : c.writeDeadline with
    | none => simp
    | some d =>
      by_cases h : d ≤ t
      · simp [h]
      · simp [h]

/-- A pass of the writer that is back at its `select` before the tick is due, with a
send that takes less than one period on an open connection: the ping goes out when
the ticker fires and the writer is back before the next tick. -/
theorem pass_on_time {s : Sys} {n took : Nat} (hk : s.ticker = some n) (hn : s.now ≤ n)
    (hc : s.conn.closedAt = none) (hw : s.writerTask = .running)
    (hd : ∀ d, s.conn.writeDeadline = some d → n + writeWait ≤ d + pingPeriod)
    (ht : took < pingPeriod) :
    (writer.pass s took).ticker = some (n + pingPeriod) ∧
    (writer.pass s took).now = n + took ∧
    (writer.pass s took).conn.closedAt = none ∧
    (writer.pass s took).writerTask = .running ∧
    (writer.pass s took).conn.writeDeadline = some (n + took + writeWait) ∧
    (writer.pass s took).wire = s.wire ++ [⟨n, PingMessage, [], s.conn.writeDeadline⟩] := by
  have h1 := pingPeriod_val
  have h2 := writeWait_val
  have hmax : max s.now n = n := Nat.max_eq_right hn
  have hwm : s.conn.WriteMessageTaking n took = (n + took, none) := by
    unfold Conn.WriteMessageTaking
    cases hwd : s.conn.writeDeadline with
    | none => simp [hc]
    | some d =>
      have := hd d hwd
      have h3 : ¬ d ≤ n := by omega
      have h4 : n + took < d := by omega
      simp [hc, h3, h4]
  unfold writer.pass
  simp only [hk, hmax, Nat.sub_self, Nat.zero_div, Nat.zero_add, Nat.one_mul]
  rw [hwm]
  simp [Sys.println, Conn.SetWriteDeadline, hc, hw]

theorem tickInstants_length (n k : Nat) : (tickInstants n k).length = k := by
  induction k generalizing n with
  | zero => rfl
  | succ k ih => simp [tickInstants, ih]

theorem tickInstants_chain (n k : Nat) :
    List.Chain' (fun a b => b = a + pingPeriod) (tickInstants n k) := by
  induction k generalizing n with
  | zero => simp [tickInstants]
  | succ k ih =>
    simp only [tickInstants]
    rw [List.chain'_cons']
    refine ⟨?_, ih _⟩
    intro y hy
    cases k with
    | zero => simp [tickInstants] at hy
    | succ j =>
      simp [tickInstants] at hy
      exact hy.symm

/-- Passes of a writer whose sends all take less than one period: every tick is
taken when it fires and puts one ping on the wire. -/
theorem passes_on_time {tooks : List Nat} {s : Sys} {n : Nat} (hk : s.ticker = some n)
    (hn : s.now ≤ n) (hc : s.conn.closedAt = none) (hw : s.writerTask = .running)
    (hd : ∀ d, s.conn.writeDeadline = some d → n + writeWait ≤ d + pingPeriod)
    (ht : ∀ x ∈ tooks, x < pingPeriod) :
    (writer.passes s tooks).writerTask = .running ∧
    (writer.passes s tooks).conn.closedAt = none ∧
    (writer.passes s tooks).wire.map Sent.time =
      s.wire.map Sent.time ++ tickInstants n tooks.length ∧
    (∀ x ∈ (writer.passes s tooks).wire,
      x ∈ s.wire ∨ (x.msgType = PingMessage ∧ x.data = [])) := by
  induction tooks generalizing s n with
  | nil =>
    exact ⟨hw, hc, by simp [writer.passes, tickInstants], fun x hx => Or.inl hx⟩
  | cons took rest ih =>
    obtain ⟨p1, p2, p3, p4, p5, p6⟩ :=
      pass_on_time hk hn hc hw hd (ht took (by simp))
    have hd' : ∀ d, (writer.pass s took).conn.writeDeadline = some d →
        n + pingPeriod + writeWait ≤ d + pingPeriod := by
      intro d hd1
      rw [p5] at hd1
      cases hd1
      omega
    have hlt := ht took (by simp)
    obtain ⟨q1, q2, q3, q4⟩ := ih p1 (by omega) p3 p4 hd'
      (fun x hx => ht x (List.mem_cons_of_mem _ hx))
    refine ⟨q1, q2, ?_, ?_⟩
    · simp only [writer.passes, List.length_cons, tickInstants]
      rw [q3, p6]
      simp
    · intro x hx
      simp only [writer.passes] at hx
      rcases q4 x hx with h | h
      · rw [p6] at h
        rcases List.mem_append.mp h with h | h
        · exact Or.inl h
        · simp only [List.mem_singleton] at h
          subst h
          exact Or.inr ⟨rfl, rfl⟩
      · exact Or.inr h

/-- With a send that takes no time and a writer that is waiting when the tick fires,
a pass of the loop is the tick of the step model. -/
theorem pass_zero {s : Sys} {n : Nat} (hk : s.ticker = some n) (hn : s.now ≤ n) :
    writer.pass s 0 = writer.tick { s with now := n } true := by
  have hmax : max s.now n = n := Nat.max_eq_right hn
  unfold writer.pass writer.tick
  simp only [hk, hmax, Nat.sub_self, Nat.zero_div, Nat.zero_add, Nat.one_mul]
  rw [WriteMessageTaking_zero]
  cases s.conn.WriteMessage n true <;> rfl

/-- An accepted tick on an open connection always puts its ping on the wire. -/
theorem step_tick_open {evs : List (Nat × Event)} {s s' : Sys} {t : Nat}
    (hr : run init evs = some s) (hs : step s t (.tick true) = some s')
    (hc : (advance s t).conn.closedAt = none) :
    s'.wire = s.wire ++ [⟨t, PingMessage, [], s.conn.writeDeadline⟩] ∧
    s'.writerTask = .running ∧ s'.ticker = some (t + pingPeriod) := by
  obtain ⟨-, hdue, hh⟩ := step_some hs
  have hWx := advance_writerInv (reachable_writerInv hr) hdue
  have hw := advance_wire s t
  have hn := advance_now s t
  have hd := advance_writeDeadline s t
  generalize advance s t = x at hh hWx hw hn hd hc
  simp only [handle] at hh
  split at hh <;> simp at hh
  subst hh
  rename_i hen
  have hwm := WriteMessage_tick hWx hen.1 hc
  unfold writer.tick
  simp only
  rw [hwm]
  simp [Sys.println, Conn.SetWriteDeadline, hw, hn, hd, hen.2]

/-- C4, as amended: heartbeat cadence.  The ticker period is pongWait * 9 / 10 in exact
integer arithmetic (no remainder, no overflow of a 64-bit duration), that is 4.5 s,
strictly less than pongWait.  On each tick the writer writes exactly one ping with an
empty payload: when the write returns no error the ping is on the wire and the writer
goes on, when it returns an error nothing is written and the writer exits; in every
run an accepted tick on an open connection puts its ping on the wire and no other
event puts anything on the wire.  For a writer
started at `w0` on a connection that stays open, whose sends each take less than
pingPeriod, every send succeeds, there is one ping for each tick, and the pings go
out at the instants the ticker fires, `w0 + pingPeriod`, `w0 + 2 * pingPeriod`, ...,
exactly pingPeriod apart. -/
theorem heartbeat_cadence (w0 : Nat) (tooks : List Nat) (h : ∀ x ∈ tooks, x < pingPeriod) :
    pingPeriod = pongWait * 9 / 10 ∧ pongWait * 9 % 10 = 0 ∧ pongWait * 9 < 2 ^ 63 ∧
    pingPeriod = 4500 * Millisecond ∧ pingPeriod < pongWait ∧
    (∀ (x : Sys) (a : Bool),
      (x.conn.WriteMessage x.now a = none →
        (writer.tick x a).wire = x.wire ++ [⟨x.now, PingMessage, [], x.conn.writeDeadline⟩] ∧
        (writer.tick x a).writerTask = x.writerTask ∧
        (writer.tick x a).ticker = some (x.now + pingPeriod)) ∧
      (∀ e, x.conn.WriteMessage x.now a = some e →
        (writer.tick x a).wire = x.wire ∧ (writer.tick x a).writerTask = .exited ∧
        (writer.tick x a).ticker = none)) ∧
    (∀ (evs : List (Nat × Event)) (s s' : Sys) (t : Nat), run init evs = some s →
      step s t (.tick true) = some s' → (advance s t).conn.closedAt = none →
      s'.wire = s.wire ++ [⟨t, PingMessage, [], s.conn.writeDeadline⟩] ∧
      s'.writerTask = .running ∧ s'.ticker = some (t + pingPeriod)) ∧
    (∀ (evs : List (Nat × Event)) (s s' : Sys) (t : Nat) (e : Event), run init evs = some s →
      step s t e = some s' → (∀ a, e ≠ .tick a) → s'.wire = s.wire) ∧
    (∃ s, writer.passes (writer.start { init with now := w0 }) tooks = s ∧
      s.writerTask = .running ∧ s.conn.closedAt = none ∧
      s.wire.length = tooks.length ∧
      s.wire.map Sent.time = tickInstants (w0 + pingPeriod) tooks.length ∧
      List.Chain' (fun a b => b = a + pingPeriod) (s.wire.map Sent.time) ∧
      (∀ x ∈ s.wire, x.msgType = PingMessage ∧ x.data = [])) := by
  refine ⟨rfl, by decide, by decide, by decide, by decide, ?_, ?_, ?_, _, rfl, ?_⟩
  · intro x a
    refine ⟨fun hx => ?_, fun e hx => ?_⟩
    · unfold writer.tick
      simp only
      rw [hx]
      simp [Sys.println, Conn.SetWriteDeadline]
    · unfold writer.tick
      simp only
      rw [hx]
      simp [writer.exit, Sys.println]
  · intro evs s s' t hr hs hc
    exact step_tick_open hr hs hc
  · intro evs s s' t e _ hs hne
    rcases step_wire hs with hw | ⟨a, ha, -⟩
    · exact hw
    · exact absurd ha (hne a)
  · have hp := pingPeriod_val
    obtain ⟨q1, q2, q3, q4⟩ := @passes_on_time tooks
      (writer.start { init with now := w0 }) (w0 + pingPeriod)
      rfl (by simp [writer.start, Sys.println, init]) rfl rfl
      (by intro d hd; simp [writer.start, Sys.println, init] at hd) h
    have q3' : (writer.passes (writer.start { init with now := w0 }) tooks).wire.map Sent.time
        = tickInstants (w0 + pingPeriod) tooks.length := by
      rw [q3]
      simp [writer.start, Sys.println, init]
    refine ⟨q1, q2, ?_, q3', ?_, ?_⟩
    · have := congrArg List.length q3'
      simpa [tickInstants_length] using this
    · rw [q3']
      exact tickInstants_chain _ _
    · intro x hx
      rcases q4 x hx with hx0 | hx0
      · simp [writer.start, Sys.println, init] at hx0
      · exact hx0

/-- C4, witness: a writer started at 0 whose sends take 0 s, 1 s and 2 s. -/
theorem heartbeat_cadence_witness :
    (∀ x ∈ [0, 1 * Second, 2 * Second], x < pingPeriod) ∧
    (∃ s, writer.passes (writer.start { init with now := 0 }) [0, 1 * Second, 2 * Second] = s ∧
      s.writerTask = .running ∧ s.conn.closedAt = none ∧
      s.wire.length = [0, 1 * Second, 2 * Second].length ∧
      s.wire.map Sent.time =
        tickInstants (0 + pingPeriod) [0, 1 * Second, 2 * Second].length ∧
      List.Chain' (fun a b => b = a + pingPeriod) (s.wire.map Sent.time) ∧
      (∀ x ∈ s.wire, x.msgType = PingMessage ∧ x.data = [])) ∧
    tickInstants (0 + pingPeriod) [0, 1 * Second, 2 * Second].length =
      [4500 * Millisecond, 9 * Second, 13500 * Millisecond] :=
  ⟨by decide,
    (heartbeat_cadence 0 [0, 1 * Second, 2 * Second] (by decide)).2.2.2.2.2.2.2.2,
    by decide⟩

/-- C4 read at the letter fails: consecutive pings can be more than pingPeriod apart.
A writer started at 0 sends its first ping at 4.5 s; its second ping, written at 9 s
under the write deadline of 14.5 s, is taken by the transport only after 5 s, at 14 s,
without error; the third ping goes out when that write has returned, at 14 s, that
is 5 s after the second. -/
theorem slow_send_spreads_pings :
    ∃ s, writer.passes (writer.start init) [0, 5 * Second, 0] = s ∧
      s.writerTask = .running ∧ s.conn.closedAt = none ∧
      s.wire = [⟨4500 * Millisecond, PingMessage, [], none⟩,
        ⟨9 * Second, PingMessage, [], some (14500 * Millisecond)⟩,
        ⟨14 * Second, PingMessage, [], some (24 * Second)⟩] ∧
      9 * Second + pingPeriod < 14 * Second ∧
      ¬ List.Chain' (fun a b : Sent => b.time ≤ a.time + pingPeriod) s.wire := by
  have hwire : (writer.passes (writer.start init) [0, 5 * Second, 0]).wire =
      [⟨4500 * Millisecond, PingMessage, [], none⟩,
        ⟨9 * Second, PingMessage, [], some (14500 * Millisecond)⟩,
        ⟨14 * Second, PingMessage, [], some (24 * Second)⟩] := by
    decide
  refine ⟨_, rfl, by decide, by decide, hwire, by decide, ?_⟩
  intro hch
  rw [hwire, List.chain'_cons, List.chain'_cons] at hch
  exact absurd hch.2.1 (by decide)

end PingPong
